import Mathlib

/-!
Verification development for the wikilanguage repository.

The Python sources under study are shallowly embedded below:
pure functions become Lean functions, Python dicts become an
insertion-ordered dictionary model, `Counter` objects become association
lists with a counting lookup, fallible code returns `Except String`,
and machine-level concerns (files, processes, queues) are abstracted to
the data they carry.  Every definition is translated from the source
files (`wikipedia_parser.py`, `wikidata_parser.py`, `pipelines.py`,
`pagerank.py`); the few places where an external library or the spec
stands in for missing code are marked `Modelled from the spec:`.
-/

/-! ## Counters (`collections.Counter`)

A `Counter` is embedded as an association list `List (String × Nat)`.
`cnt` is the counting lookup (`counter[k]`, defaulting to 0), `bump`
is `counter[k] += c` (update the existing entry, else append). -/

def cnt (l : List (String × Nat)) (k : String) : Nat :=
  (l.map (fun p => if p.1 = k then p.2 else 0)).sum

def bump : List (String × Nat) → String → Nat → List (String × Nat)
  | [], k, c => [(k, c)]
  | (a, b) :: t, k, c => if a = k then (a, b + c) :: t else (a, b) :: bump t k c

/-! ## Python dicts

An insertion-ordered string-keyed dictionary: `doms` is the key list in
insertion order (used when the source iterates the dict), `val` is the
lookup function (`none` models a missing key). -/

structure Dict (α : Type) where
  doms : List String
  val : String → Option α

def Dict.empty {α : Type} : Dict α := ⟨[], fun _ => none⟩

/-- `d[k] = v` : replace the value if the key exists, else append the key. -/
def Dict.set {α : Type} (d : Dict α) (k : String) (v : α) : Dict α :=
  { doms := if (d.val k).isSome then d.doms else d.doms ++ [k]
    val := fun x => if x = k then some v else d.val x }

/-- `k in d` -/
def Dict.mem {α : Type} (d : Dict α) (k : String) : Bool :=
  (d.val k).isSome

/-! ## wikipedia_parser.py : data model -/

/-- `ParsedRawPage` (`wikipedia_parser.py`): id, title, optional redirect
target, and the wikilink multiset parsed from the revision text. -/
structure ParsedRawPage where
  id : String
  title : String
  redirect : Option String
  links : List (String × Nat)
deriving Repr, DecidableEq

/-- `WikipediaCanonicalPage` (`wikipedia_parser.py`): the slots of the
dataclass.  `pagerank` and `pagerank_percentile` are rationals standing
in for the Python floats (they are only ever copied around by the code
under study). -/
structure CPage where
  id : String
  title : String
  aliases : List String
  links : List (String × Nat)
  inlinks : List (String × Nat)
  pagerank : Option Rat
  pagerank_percentile : Option Rat
deriving Repr, DecidableEq

/-! ## wikipedia_parser.py : WikipediaCanonicalPageResolver

`resolve_parsed_pages` is embedded in three phases mirroring the three
loops of the source: partitioning, redirect chasing, link rewriting. -/

/-- Phase 1 (source lines 357-372): partition parsed pages into the
`title_to_wikipedia_page` dict of terminal pages and the `redirects`
dict.  `if p.redirect:` is Python truthiness: `None` and the empty
string both fall to the terminal branch. -/
def step1 (st : Dict CPage × Dict (Option String)) (p : ParsedRawPage) :
    Dict CPage × Dict (Option String) :=
  let (term, rd) := st
  match p.redirect with
  | some r =>
    if r = "" then
      (term.set p.title ⟨p.id, p.title, [], p.links, [], none, none⟩, rd)
    else
      (term, rd.set p.title (some r))
  | none =>
    (term.set p.title ⟨p.id, p.title, [], p.links, [], none, none⟩, rd)

def phase1 (ps : List ParsedRawPage) : Dict CPage × Dict (Option String) :=
  ps.foldl step1 (Dict.empty, Dict.empty)

inductive WalkResult where
  | cycle : WalkResult
  | resolvedTo (target : String) : WalkResult
  | dangling : WalkResult
  | outOfFuel : WalkResult
deriving Repr, DecidableEq

/-- The `while True` walk of one redirect chain (source lines 380-402).
The pointer is `Option String` because compressed entries hold `None`
and the walk can step onto such a value.  `seen` is `seen_pages`.
The fuel argument only bounds the recursion; phase 2 passes enough fuel
that it never runs out (each iteration adds a previously unseen pointer
to `seen`, and pointers are drawn from the finite set of stored redirect
values plus the starting value). -/
def walk (term : Dict CPage) (rd : Dict (Option String))
    (ptr : Option String) (seen : List (Option String)) :
    Nat → WalkResult
  | 0 => .outOfFuel
  | fuel + 1 =>
    if ptr ∈ seen then .cycle
    else
      let seen := ptr :: seen
      match ptr with
      | some s =>
        if term.mem s then .resolvedTo s
        else
          match rd.val s with
          | some next => walk term rd next seen fuel
          | none => .dangling
      | none => .dangling

/-- `title_to_wikipedia_page[target].aliases.add(title)` -/
def addAlias (term : Dict CPage) (target title : String) : Dict CPage :=
  match term.val target with
  | some q =>
    term.set target
      { q with aliases := if title ∈ q.aliases then q.aliases else title :: q.aliases }
  | none => term

/-- Phase-2 statistics `(resolved_count, circle_count, unresolvable_count)`. -/
structure RedirectStats where
  resolved : Nat
  circle : Nat
  unresolvable : Nat
deriving Repr, DecidableEq

/-- Phase 2 (source lines 375-411): chase every redirect chain.  The
iteration is over the keys of `redirects` in insertion order; each step
reads the current value of its own key (unchanged so far, since every
iteration writes only its own key) and path-compresses it to the
terminal title, or to `None` on a cycle or a dangling chain.  The final
tautology `assert` of the source is checked at the end. -/
def step2 (fuel : Nat)
    (st : Dict CPage × Dict (Option String) × RedirectStats × Bool)
    (title : String) : Dict CPage × Dict (Option String) × RedirectStats × Bool :=
  match st.2.1.val title with
  | none => st
  | some redirect =>
    match walk st.1 st.2.1 redirect [] fuel with
    | .cycle =>
      (st.1, st.2.1.set title none,
        { st.2.2.1 with circle := st.2.2.1.circle + 1 }, st.2.2.2)
    | .resolvedTo target =>
      (addAlias st.1 target title, st.2.1.set title (some target),
        { st.2.2.1 with resolved := st.2.2.1.resolved + 1 }, st.2.2.2)
    | .dangling =>
      (st.1, st.2.1.set title none,
        { st.2.2.1 with unresolvable := st.2.2.1.unresolvable + 1 }, st.2.2.2)
    | .outOfFuel => (st.1, st.2.1, st.2.2.1, true)

def phase2 (term0 : Dict CPage) (rd0 : Dict (Option String)) :
    Except String (Dict CPage × Dict (Option String) × RedirectStats) :=
  let fuel := rd0.doms.length + 2
  let out := rd0.doms.foldl (step2 fuel) (term0, rd0, ⟨0, 0, 0⟩, false)
  if out.2.2.2 then .error "walk out of fuel (unreachable)"
  else if out.2.2.1.resolved + out.2.2.1.circle + out.2.2.1.unresolvable
      = rd0.doms.length then
    .ok (out.1, out.2.1, out.2.2.1)
  else .error "AssertionError: Not tautology with all redirects"

/-- `str.capitalize()`: first code point title-cased, the remaining code
points lower-cased.  (`Char.toUpper`/`Char.toLower` agree with Python on
ASCII, which is all the proofs below evaluate it on.) -/
def pyCapitalize (s : String) : String :=
  match s.data with
  | [] => ""
  | c :: rest => ⟨c.toUpper :: rest.map Char.toLower⟩

/-- The variant named by the spec sentence: upper-case the first code
point and leave the remaining code points unchanged. -/
def upperFirstOnly (s : String) : String :=
  match s.data with
  | [] => ""
  | c :: rest => ⟨c.toUpper :: rest⟩

inductive LinkRes where
  /-- the link resolved to this terminal title -/
  | target (t : String) : LinkRes
  /-- unresolved, counted as a file link -/
  | fileLink : LinkRes
  /-- unresolved, counted as a bad link -/
  | badLink : LinkRes
  /-- the `assert resolved_link in title_to_wikipedia_page` failed -/
  | assertFail : LinkRes
deriving Repr, DecidableEq

/-- The `for link in (raw_link, raw_link.capitalize())` loop of phase 3
(source lines 421-449).  `m` is membership in the live
`title_to_wikipedia_page` dict (phase 3 never adds or removes keys, so
this is stable); `rd` is the post-phase-2 `redirects` dict. -/
def stepCand (rd : Dict (Option String)) (m : String → Bool) (link : String) :
    Option LinkRes :=
  match rd.val link with
  | some (some t) => some (if m t then LinkRes.target t else LinkRes.assertFail)
  | _ => if m link then some (.target link) else none

def resolveLink (rd : Dict (Option String)) (m : String → Bool) (raw : String) :
    LinkRes :=
  match stepCand rd m raw with
  | some r => r
  | none =>
    match stepCand rd m (pyCapitalize raw) with
    | some r => r
    | none =>
      if raw.startsWith "File:" || raw.startsWith "Image:" then .fileLink
      else .badLink

/-- Link statistics `(good_link_count, bad_link_count, file_count)`.
`good` counts resolved link *entries*, `bad` and `file` accumulate the
raw occurrence counts, as in the source. -/
structure LinkStats where
  good : Nat
  bad : Nat
  file : Nat
deriving Repr, DecidableEq

/-- The inner `for raw_link, count in p.links.items()` loop of phase 3:
builds `resolved_links` and pushes `inlinks` increments into the live
dict. -/
def links3 (rd : Dict (Option String)) (src : String) :
    List (String × Nat) → List (String × Nat) → Dict CPage → LinkStats →
    Except String (List (String × Nat) × Dict CPage × LinkStats)
  | [], resolved, st, stats => .ok (resolved, st, stats)
  | (raw, count) :: items, resolved, st, stats =>
    match resolveLink rd (fun k => st.mem k) raw with
    | .target t =>
      let st :=
        match st.val t with
        | some q => st.set t { q with inlinks := bump q.inlinks src count }
        | none => st
      links3 rd src items (bump resolved t count) st
        { stats with good := stats.good + 1 }
    | .fileLink =>
      links3 rd src items resolved st { stats with file := stats.file + count }
    | .badLink =>
      links3 rd src items resolved st { stats with bad := stats.bad + count }
    | .assertFail =>
      .error "AssertionError: Bad redirect was formed"

/-- One iteration of the outer page loop of phase 3 (source lines
417-454): look up the live page, rewrite its links, push the
`resolved_links` back in
(`p.links.clear(); p.links.update(resolved_links)`). -/
def step3 (rd : Dict (Option String)) (st : Dict CPage × LinkStats) (t : String) :
    Except String (Dict CPage × LinkStats) :=
  match st.1.val t with
  | none => .ok st
  | some p => do
    let (resolved, pages, stats) ← links3 rd p.title p.links [] st.1 st.2
    match pages.val t with
    | some p2 => pure (pages.set t { p2 with links := resolved }, stats)
    | none => pure (pages, stats)

def phase3 (rd : Dict (Option String)) (term : Dict CPage) :
    Except String (Dict CPage × LinkStats) :=
  term.doms.foldlM (step3 rd) (term, ⟨0, 0, 0⟩)

/-- `WikipediaCanonicalPageResolver.resolve_parsed_pages`: the full
three-phase resolver.  The final generator yields the pages of the dict
(`popitem` order); the claims below quantify over the dict itself. -/
def resolve_parsed_pages (ps : List ParsedRawPage) :
    Except String (Dict CPage × RedirectStats × LinkStats) := do
  let (term0, rd0) := phase1 ps
  let (term1, rd1, rstats) ← phase2 term0 rd0
  let (pages, lstats) ← phase3 rd1 term1
  return (pages, rstats, lstats)

/-! ## wikipedia_parser.py : WikiXMLHandler

The SAX handler is embedded as a state machine over an event list
(`startElement`, `endElement`, `characters`).  `StringIO` buffers become
`Option String` (a `None` buffer mirrors the uninitialized attribute),
the output queue becomes the list of emitted pages, and every
`RuntimeError` / `StopIteration` / attribute error becomes an
`Except.error`. -/

/-- `UnparsedRawPage` (`wikipedia_parser.py` line 13).  All four fields
can be `None` at emission time, hence `Option`. -/
structure UnparsedRawPage where
  id : Option String
  title : Option String
  redirect : Option String
  text : Option String
deriving Repr, DecidableEq

inductive HEvent where
  | startElem (name : String) (attrs : List (String × String))
  | endElem (name : String)
  | chars (data : String)
deriving Repr, DecidableEq

/-- The mutable attributes of `WikiXMLHandler` (`__init__`, lines
127-152).  `revision_text_buffer` / `revision_text_length` are created
lazily in the source; they start as `none` / `0` here. -/
structure HState where
  element_count : Nat
  page_count : Nat
  in_page : Bool
  limit : Option Nat
  revision_text_limit : Nat
  in_title : Bool
  title_buffer : Option String
  page_title : Option String
  page_text : Option String
  page_redirect : Option String
  seen_page_revision : Bool
  in_revision : Bool
  in_revision_text : Bool
  in_id : Bool
  id_buffer : Option String
  page_id : Option String
  revision_text_buffer : Option String
  revision_text_length : Nat
deriving Repr, DecidableEq

def initHState (limit : Option Nat) : HState :=
  { element_count := 0, page_count := 0, in_page := false, limit := limit
    revision_text_limit := 100 * 1024 * 1024
    in_title := false, title_buffer := none, page_title := none
    page_text := none, page_redirect := none
    seen_page_revision := false, in_revision := false, in_revision_text := false
    in_id := false, id_buffer := none, page_id := none
    revision_text_buffer := none, revision_text_length := 0 }

/-- Python `str.strip()`: drop whitespace from both ends (structural,
so that concrete runs reduce). -/
def pyStrip (s : String) : String :=
  ⟨((s.data.dropWhile Char.isWhitespace).reverse.dropWhile
      Char.isWhitespace).reverse⟩

/-- Python truthiness of an optional string: `None` and `""` are falsy. -/
def truthyStr : Option String → Bool
  | some s => s ≠ ""
  | none => false

/-- `WikiXMLHandler.startElement` (lines 154-202). -/
def hStart (s0 : HState) (name : String) (attrs : List (String × String)) :
    Except String HState := do
  let s := { s0 with element_count := s0.element_count + 1 }
  if s.in_title then .error "RuntimeError: element within a title"
  else if s.in_revision_text then .error "RuntimeError: element within revision text"
  else if s.in_id then .error "RuntimeError: element within id"
  else do
    let s ←
      if name = "page" then
        if s.in_page then .error "RuntimeError: Recursive page"
        else pure { s with in_page := true }
      else pure s
    if s.in_page then
      if name = "title" then
        if truthyStr s.page_title then
          .error "RuntimeError: second title for the page"
        else pure { s with in_title := true, title_buffer := some "" }
      else if name = "redirect" then
        if truthyStr s.page_redirect then
          .error "RuntimeError: already had a redirect"
        else if attrs.length ≠ 1 then
          .error "RuntimeError: more than one redirect attribute"
        else
          match attrs.lookup "title" with
          | some v => pure { s with page_redirect := some v }
          | none => .error "KeyError: title"
      else if name = "revision" then
        if s.seen_page_revision then
          .error "RuntimeError: second page revision"
        else pure { s with in_revision := true }
      else if s.in_revision && name = "text" then
        pure { s with in_revision_text := true,
                      revision_text_buffer := some "",
                      revision_text_length := 0 }
      else if name = "id" then
        pure { s with in_id := true, id_buffer := some "" }
      else pure s
    else pure s

/-- `WikiXMLHandler.handle_page` (lines 249-259): emit the accumulated
page; `raise StopIteration` once the configured limit is reached (the
page is emitted first in the source; the error here models the
unwinding). -/
def handlePage (s0 : HState) : Except String (HState × List UnparsedRawPage) :=
  let s := { s0 with page_count := s0.page_count + 1 }
  let page : UnparsedRawPage := ⟨s.page_id, s.page_title, s.page_redirect, s.page_text⟩
  match s.limit with
  | some l =>
    if l ≠ 0 && s.page_count ≥ l then .error "StopIteration" else .ok (s, [page])
  | none => .ok (s, [page])

/-- `WikiXMLHandler.endElement` (lines 204-232).  Note that closing a
`page` resets title, text, redirect and revision state but leaves
`page_id` untouched, and that the `id` branch is reached for any `id`
element inside the page, including those inside `revision`. -/
def hEnd (s : HState) (name : String) :
    Except String (HState × List UnparsedRawPage) := do
  if name = "page" then
    let (s, out) ← handlePage s
    pure ({ s with in_page := false, page_title := none, page_text := none,
                   seen_page_revision := false, page_redirect := none }, out)
  else if s.in_page then
    if name = "title" then
      match s.title_buffer with
      | some b =>
        pure ({ s with in_title := false, page_title := some b,
                       title_buffer := none }, [])
      | none => .error "AttributeError: getvalue of None"
    else if name = "redirect" then pure (s, [])
    else if name = "revision" then
      pure ({ s with in_revision := false, seen_page_revision := true }, [])
    else if s.in_revision && name = "text" then
      match s.revision_text_buffer with
      | some b =>
        pure ({ s with in_revision_text := false, page_text := some b,
                       revision_text_buffer := none,
                       revision_text_length := 0 }, [])
      | none => .error "AttributeError: getvalue of None"
    else if name = "id" then
      match s.id_buffer with
      | some b =>
        pure ({ s with in_id := false, page_id := some (pyStrip b),
                       id_buffer := none }, [])
      | none => .error "AttributeError: getvalue of None"
    else pure (s, [])
  else pure (s, [])

/-- `WikiXMLHandler.characters` (lines 234-247). -/
def hChars (s : HState) (data : String) : Except String HState :=
  if s.in_title then
    match s.title_buffer with
    | some b => .ok { s with title_buffer := some (b ++ data) }
    | none => .error "AttributeError: write to None"
  else if s.in_revision_text then
    if s.revision_text_length > s.revision_text_limit then .ok s
    else
      match s.revision_text_buffer with
      | some b =>
        .ok { s with revision_text_length := s.revision_text_length + data.length,
                     revision_text_buffer := some (b ++ data) }
      | none => .error "AttributeError: write to None"
  else if s.in_id then
    match s.id_buffer with
    | some b => .ok { s with id_buffer := some (b ++ data) }
    | none => .error "AttributeError: write to None"
  else .ok s

def hStep (s : HState) : HEvent → Except String (HState × List UnparsedRawPage)
  | .startElem name attrs => do
    let s ← hStart s name attrs
    pure (s, [])
  | .endElem name => hEnd s name
  | .chars data => do
    let s ← hChars s data
    pure (s, [])

/-- Feed a whole event stream to the handler, accumulating the emitted
pages in order. -/
def runHandler (events : List HEvent) (limit : Option Nat) :
    Except String (HState × List UnparsedRawPage) :=
  events.foldlM
    (fun (st : HState × List UnparsedRawPage) ev => do
      let (s, out) := st
      let (s, out2) ← hStep s ev
      pure (s, out ++ out2))
    (initHState limit, [])

/-! ## pagerank.py

`pagerank` assigns each article a dense index by first encounter and
adds, for each article with outlinks, one edge per `(target, count)`
with weight `count / sum_of_counts`.  The eigenvector solve is done by
`graph_tool.centrality.pagerank`, an external library; following the
spec it is modelled as the damped-random-walk fixed point.  Percentiles
are `scipy.stats.rankdata` (average method) divided by the vector
length. -/

/-- `sum(page.links.values())` -/
def outNorm (p : CPage) : Nat := (p.links.map Prod.snd).sum

/-- The edge weight from page `i` to page `j` of the graph built by
`pagerank` (`pagerank.py` lines 23-29), for a list of pages with
distinct titles: `count / norm`, and `0` where no edge was added. -/
def linkWeight (pages : List CPage) (i j : Nat) : Rat :=
  match pages.get? i, pages.get? j with
  | some pi, some pj => (cnt pi.links pj.title : Rat) / (outNorm pi : Rat)
  | _, _ => 0

/-- Modelled from the spec: `graph_tool.centrality.pagerank` is not part
of this repository; per §4.4 the solver must match weighted-PageRank
semantics, i.e. compute the fixed point of the damped random walk
`pr(j) = (1-d)/N + d * Σ_i pr(i)·w(i,j)` with damping `d = 0.85` over
the per-source-normalized weights. -/
def isPagerankFixpoint (n : Nat) (w : Fin n → Fin n → Rat) (pr : Fin n → Rat) :
    Prop :=
  ∀ j : Fin n,
    pr j = (1 - (17 : Rat) / 20) / (n : Rat)
      + (17 : Rat) / 20 * ∑ i : Fin n, pr i * w i j

/-- Modelled from the spec: `scipy.stats.rankdata` with the default
`average` method (the spec fixes average-rank tie-breaking): the rank of
a value is the number of strictly smaller entries plus the average of
the positions its tie-group occupies, i.e.
`#smaller + (#equal + 1)/2`. -/
def rankAvg (l : List Rat) (x : Rat) : Rat :=
  ((l.filter (fun y => y < x)).length : Rat)
    + (((l.filter (fun y => y = x)).length : Rat) + 1) / 2

/-- The percentile vector of `pagerank_with_percentiles`
(`pagerank.py` lines 44-48): `rankdata(pageranks) / len(pageranks)`,
or the literal `[1.0]` when the input is empty. -/
def pagerank_percentiles (prs : List Rat) : List Rat :=
  if prs.length > 0 then prs.map (fun x => rankAvg prs x / (prs.length : Rat))
  else [1]

/-- The 3-node ring of spec scenario 4: `X → Y → Z → X`, one link each. -/
def ringPages : List CPage :=
  [ ⟨"x1", "X", [], [("Y", 1)], [], none, none⟩,
    ⟨"x2", "Y", [], [("Z", 1)], [], none, none⟩,
    ⟨"x3", "Z", [], [("X", 1)], [], none, none⟩ ]

/-! ## wikidata_parser.py : data model

The embedding starts from the JSON object a dump line decodes to
(`json.loads` and the leading `startswith("{")` framing check are
outside the scope of the claims).  Optional structure fields model the
presence or absence of the corresponding JSON keys; reading a missing
key where the source subscripts unconditionally is a `KeyError`. -/

/-- One entry of the `labels` dict: an object carrying a `value` key. -/
structure LabelObj where
  value : String
deriving Repr, DecidableEq

/-- One entry of the `sitelinks` dict: an object carrying a `title` key. -/
structure SiteLinkObj where
  title : String
deriving Repr, DecidableEq

/-- The dict stored under `datavalue.value` for a `time` snak; each
field models one optional key. -/
structure TimeDict where
  time : Option String
  precision : Option Int
  calendarmodel : Option String
deriving Repr, DecidableEq

/-- The possible shapes of `datavalue.value` used by the claims of this
repository: a `wikibase-entityid` object, a `globecoordinate` object, or
a `time` object.  Each variant is a dict; the accessors below model
`key in value` / `value[key]` on it (a key of another variant is simply
absent). -/
inductive DataVal where
  | entityVal (entityType : Option String) (entityId : Option String)
  | globeVal (latitude longitude altitude precision : Option Rat)
  | timeVal (t : TimeDict)
deriving Repr, DecidableEq

def DataVal.entityTypeKey : DataVal → Option String
  | .entityVal et _ => et
  | _ => none

def DataVal.idKey : DataVal → Option String
  | .entityVal _ i => i
  | _ => none

def DataVal.timeKey : DataVal → Option String
  | .timeVal t => t.time
  | _ => none

def DataVal.precisionKey : DataVal → Option Int
  | .timeVal t => t.precision
  | _ => none

def DataVal.calendarmodelKey : DataVal → Option String
  | .timeVal t => t.calendarmodel
  | _ => none

def DataVal.latitudeKey : DataVal → Option Rat
  | .globeVal la _ _ _ => la
  | _ => none

def DataVal.longitudeKey : DataVal → Option Rat
  | .globeVal _ lo _ _ => lo
  | _ => none

def DataVal.altitudeKey : DataVal → Option Rat
  | .globeVal _ _ al _ => al
  | _ => none

def DataVal.precisionRatKey : DataVal → Option Rat
  | .globeVal _ _ _ pr => pr
  | _ => none

/-- `datavalue`: optional `type` key and the `value` payload (the source
only reads `value` after the `type` check, and the claims only exercise
lines where it is present). -/
structure DataValue where
  type : Option String
  value : DataVal
deriving Repr, DecidableEq

/-- `mainsnak`: optional `snaktype` and `datavalue` keys. -/
structure MainSnak where
  snaktype : Option String
  datavalue : Option DataValue
deriving Repr, DecidableEq

/-- One element of a claim list: an object with an optional `mainsnak`. -/
structure ClaimItem where
  mainsnak : Option MainSnak
deriving Repr, DecidableEq

/-- The `claims` dict: property id to list of claim items. -/
abbrev Claims := List (String × List ClaimItem)

/-- `GlobeCoordinate` (`wikidata_parser.py` line 14). -/
structure GlobeCoordinate where
  latitude : Rat
  longitude : Rat
  altitude : Rat
  precision : Rat
deriving Repr, DecidableEq

/-- `WikiDataEntry` (`wikidata_parser.py` lines 15-26): exactly the
seven fields of the namedtuple. -/
structure WikiDataEntry where
  id : String
  sample_label : Option String
  sample_coord : Option GlobeCoordinate
  publication_date : Option Int
  country_of_origin : Option String
  titles_by_wiki : List (String × String)
  direct_instance_of : List String
deriving Repr, DecidableEq

inductive EntryAttr where
  | aStr (s : String)
  | aOptStr (s : Option String)
  | aCoord (c : Option GlobeCoordinate)
  | aOptInt (i : Option Int)
  | aTitles (t : List (String × String))
  | aSet (s : List String)
deriving Repr, DecidableEq

/-- Python attribute lookup on a `WikiDataEntry` namedtuple instance:
defined for exactly the declared fields, `none` (`AttributeError`)
otherwise. -/
def entryGetAttr (e : WikiDataEntry) : String → Option EntryAttr
  | "id" => some (.aStr e.id)
  | "sample_label" => some (.aOptStr e.sample_label)
  | "sample_coord" => some (.aCoord e.sample_coord)
  | "publication_date" => some (.aOptInt e.publication_date)
  | "country_of_origin" => some (.aOptStr e.country_of_origin)
  | "titles_by_wiki" => some (.aTitles e.titles_by_wiki)
  | "direct_instance_of" => some (.aSet e.direct_instance_of)
  | _ => none

/-! ## wikidata_parser.py : WikiDataParser claim helpers -/

/-- `WikiDataParser.extract_snak_value` (lines 134-153).  The
`RuntimeError` raises become `Except.error`; a non-`value` snaktype
yields `none`. -/
def extract_snak_value (item : ClaimItem) (expected : String) :
    Except String (Option DataVal) :=
  match item.mainsnak with
  | none => .error "RuntimeError: Main snak not found in item"
  | some ms =>
    match ms.snaktype with
    | none => .error "RuntimeError: Main snak missing snaktype"
    | some st =>
      if st ≠ "value" then .ok none
      else
        match ms.datavalue with
        | none => .error "RuntimeError: Main snak of value type without data value"
        | some dv =>
          match dv.type with
          | none => .error "RuntimeError: Expected type mismatch"
          | some t =>
            if t ≠ expected then .error "RuntimeError: Expected type mismatch"
            else .ok (some dv.value)

/-- Python `set.add` on a set embedded as a duplicate-free list. -/
def setAdd (l : List String) (x : String) : List String :=
  if x ∈ l then l else l ++ [x]

/-- `WikiDataParser.parse_instances` (lines 155-167): the ids carried by
`P31` claims.  (The unused `instance_map` parameter of the source is
dropped.) -/
def parse_instances (claims : Claims) : Except String (List String) :=
  match claims.lookup "P31" with
  | none => .ok []
  | some instances =>
    instances.foldlM
      (fun (ret : List String) instance0 => do
        let value ← extract_snak_value instance0 "wikibase-entityid"
        match value with
        | some v =>
          match v.entityTypeKey, v.idKey with
          | some et, some i => if et = "item" then pure (setAdd ret i) else pure ret
          | _, _ => pure ret
        | none => pure ret)
      []

/-- `WikiDataParser.parse_country_of_origin` (lines 169-183). -/
def parse_country_of_origin (claims : Claims) : Except String (Option String) :=
  match claims.lookup "P495" with
  | none => .ok none
  | some instances =>
    match instances with
    | [] => .ok none
    | first :: _ => do
      let value ← extract_snak_value first "wikibase-entityid"
      match value with
      | some v =>
        match v.entityTypeKey, v.idKey with
        | some et, some i => if et = "item" then pure (some i) else pure none
        | _, _ => pure none
      | none => pure none

/-- `WikiDataParser.parse_globe_coordinate` (lines 185-195).
`coordinates[0]` on an empty claim list is an uncaught `IndexError`;
a missing coordinate key is an uncaught `KeyError`. -/
def parse_globe_coordinate (claims : Claims) :
    Except String (Option GlobeCoordinate) :=
  match claims.lookup "P625" with
  | none => .ok none
  | some coordinates =>
    match coordinates with
    | [] => .error "IndexError: list index out of range"
    | first :: _ => do
      let value ← extract_snak_value first "globecoordinate"
      match value with
      | none => pure none
      | some v =>
        match v.latitudeKey, v.longitudeKey, v.altitudeKey, v.precisionRatKey with
        | some la, some lo, some al, some pr => pure (some ⟨la, lo, al, pr⟩)
        | _, _, _, _ => .error "KeyError: coordinate component"

/-! ## wikidata_parser.py : parse_time

`datetime.datetime.strptime` is embedded as a character-level parser
with the exact semantics of the CPython `_strptime` regexes used by the
five formats of the source: `%Y` is four digits; `%m`, `%d`, `%H`,
`%M`, `%S` are the usual one-or-two-digit alternations tried
two-digit-first with backtracking; the whole (sliced) string must be
consumed; the resulting calendar date must be constructible
(`datetime` raises `ValueError` otherwise, which the source catches and
maps to `None`). -/

/-- A backtracking parser: all candidate parses in priority order. -/
abbrev PChar (α : Type) := List Char → List (α × List Char)

def pLit (c : Char) : PChar Unit := fun l =>
  match l with
  | x :: rest => if x = c then [((), rest)] else []
  | [] => []

def pThen {α β : Type} (p : PChar α) (f : α → PChar β) : PChar β := fun l =>
  (p l).flatMap (fun ar => f ar.1 ar.2)

def digitVal (c : Char) : Int := (c.toNat : Int) - 48

/-- `%Y`: exactly four digits. -/
def pYear : PChar Int := fun l =>
  match l with
  | a :: b :: c :: d :: rest =>
    if a.isDigit && b.isDigit && c.isDigit && d.isDigit then
      [(digitVal a * 1000 + digitVal b * 100 + digitVal c * 10 + digitVal d, rest)]
    else []
  | _ => []

/-- `%m`: `1[0-2] | 0[1-9] | [1-9]`. -/
def pMonth : PChar Int := fun l =>
  (match l with
   | a :: b :: rest =>
     if (a = '1' && ('0' ≤ b && b ≤ '2')) || (a = '0' && ('1' ≤ b && b ≤ '9')) then
       [(digitVal a * 10 + digitVal b, rest)]
     else []
   | _ => []) ++
  (match l with
   | a :: rest => if '1' ≤ a && a ≤ '9' then [(digitVal a, rest)] else []
   | _ => [])

/-- `%d`: `3[01] | [12]\d | 0[1-9] | [1-9]`. -/
def pDay : PChar Int := fun l =>
  (match l with
   | a :: b :: rest =>
     if (a = '3' && ('0' ≤ b && b ≤ '1')) || (('1' ≤ a && a ≤ '2') && b.isDigit)
        || (a = '0' && ('1' ≤ b && b ≤ '9')) then
       [(digitVal a * 10 + digitVal b, rest)]
     else []
   | _ => []) ++
  (match l with
   | a :: rest => if '1' ≤ a && a ≤ '9' then [(digitVal a, rest)] else []
   | _ => [])

/-- `%H`: `2[0-3] | [01]\d | \d`. -/
def pHour : PChar Int := fun l =>
  (match l with
   | a :: b :: rest =>
     if (a = '2' && ('0' ≤ b && b ≤ '3')) || (('0' ≤ a && a ≤ '1') && b.isDigit) then
       [(digitVal a * 10 + digitVal b, rest)]
     else []
   | _ => []) ++
  (match l with
   | a :: rest => if a.isDigit then [(digitVal a, rest)] else []
   | _ => [])

/-- `%M` and `%S`: `[0-5]\d | \d`. -/
def pMinSec : PChar Int := fun l =>
  (match l with
   | a :: b :: rest =>
     if ('0' ≤ a && a ≤ '5') && b.isDigit then [(digitVal a * 10 + digitVal b, rest)]
     else []
   | _ => []) ++
  (match l with
   | a :: rest => if a.isDigit then [(digitVal a, rest)] else []
   | _ => [])

/-- Run a format parser requiring full consumption; the first full
parse in priority order wins (regex backtracking semantics). -/
def runFmt {α : Type} (p : PChar α) (s : List Char) : Option α :=
  (((p s).filter (fun r => r.2.isEmpty)).head?).map Prod.fst

/-- `"+%Y"` -/
def fmtY : PChar Int :=
  pThen (pLit '+') (fun _ => pYear)

/-- `"+%Y-%m"` -/
def fmtYM : PChar (Int × Int) :=
  pThen fmtY (fun y => pThen (pLit '-') (fun _ =>
    pThen pMonth (fun m => fun l => [((y, m), l)])))

/-- `"+%Y-%m-%d"` -/
def fmtYMD : PChar (Int × Int × Int) :=
  pThen fmtYM (fun ym => pThen (pLit '-') (fun _ =>
    pThen pDay (fun d => fun l => [((ym.1, ym.2, d), l)])))

/-- `"+%Y-%m-%dT%H"` -/
def fmtYMDH : PChar (Int × Int × Int × Int) :=
  pThen fmtYMD (fun ymd => pThen (pLit 'T') (fun _ =>
    pThen pHour (fun h => fun l => [((ymd.1, ymd.2.1, ymd.2.2, h), l)])))

/-- `"+%Y-%m-%dT%H:%M:%SZ"` -/
def fmtFull : PChar (Int × Int × Int × Int × Int × Int) :=
  pThen fmtYMDH (fun ymdh => pThen (pLit ':') (fun _ =>
    pThen pMinSec (fun mi => pThen (pLit ':') (fun _ =>
      pThen pMinSec (fun sec => pThen (pLit 'Z') (fun _ =>
        fun l => [((ymdh.1, ymdh.2.1, ymdh.2.2.1, ymdh.2.2.2, mi, sec), l)]))))))

/-- Proleptic-Gregorian leap year (what `datetime` uses). -/
def isLeap (y : Int) : Bool :=
  y % 4 = 0 && (y % 100 ≠ 0 || y % 400 = 0)

def daysInMonth (y m : Int) : Int :=
  if m = 2 then (if isLeap y then 29 else 28)
  else if m = 4 || m = 6 || m = 9 || m = 11 then 30
  else 31

/-- Days from 1970-01-01 to the given proleptic-Gregorian date
(the civil-from-days inverse of Howard Hinnant's algorithm; every
division below is on non-negative operands for the years `datetime`
accepts). -/
def daysFromCivil (y m d : Int) : Int :=
  let y2 := if m ≤ 2 then y - 1 else y
  let era := (if 0 ≤ y2 then y2 else y2 - 399) / 400
  let yoe := y2 - era * 400
  let mp := if 2 < m then m - 3 else m + 9
  let doy := (153 * mp + 2) / 5 + d - 1
  let doe := yoe * 365 + yoe / 4 - yoe / 100 + doy
  era * 146097 + doe - 719468

/-- `datetime(y, m, d, h, mi, s, tzinfo=utc).timestamp()`, as an exact
integer, after the constructor validation (`ValueError` on a field out
of range becomes `none`). -/
def mkDatetime (y m d h mi s : Int) : Option Int :=
  if 1 ≤ y && y ≤ 9999 && 1 ≤ m && m ≤ 12 && 1 ≤ d && d ≤ daysInMonth y m
      && 0 ≤ h && h ≤ 23 && 0 ≤ mi && mi ≤ 59 && 0 ≤ s && s ≤ 59 then
    some (daysFromCivil y m d * 86400 + h * 3600 + mi * 60 + s)
  else none

/-- The Gregorian calendar model URI `Q1985727`. -/
def gregorianModel : String := "http://www.wikidata.org/entity/Q1985727"

/-- The `elif` chain over `precision` (lines 220-241): each branch runs
`strptime` on the sliced time string and builds the UTC datetime.  The
source tests `precision == 12` twice; the second branch (minute format)
is dead code, and the chain has no case for precision 13. -/
def parse_time_dispatch (time : String) (precision : Int) : Option Int :=
  if precision = 7 || precision = 8 || precision = 9 then
    (runFmt fmtY (time.data.take 5)).bind
      (fun y => mkDatetime y 1 1 0 0 0)
  else if precision = 10 then
    (runFmt fmtYM (time.data.take 8)).bind
      (fun ym => mkDatetime ym.1 ym.2 1 0 0 0)
  else if precision = 11 then
    (runFmt fmtYMD (time.data.take 11)).bind
      (fun x => mkDatetime x.1 x.2.1 x.2.2 0 0 0)
  else if precision = 12 then
    (runFmt fmtYMDH (time.data.take 14)).bind
      (fun x => mkDatetime x.1 x.2.1 x.2.2.1 x.2.2.2 0 0)
  else if precision = 14 then
    (runFmt fmtFull time.data).bind
      (fun x => mkDatetime x.1 x.2.1 x.2.2.1 x.2.2.2.1 x.2.2.2.2.1
        x.2.2.2.2.2)
  else none

/-- `WikiDataParser.parse_time` (lines 197-243), returning the epoch
seconds of the parsed UTC datetime.  Missing keys, a non-Gregorian
calendar, a non-`+` sign, an unknown precision and any strptime
`ValueError` all yield `none`; `time[0]` on an empty string is an
uncaught `IndexError`. -/
def parse_time (v : DataVal) : Except String (Option Int) :=
  match v.timeKey with
  | none => .ok none
  | some time =>
    match v.precisionKey with
    | none => .ok none
    | some precision =>
      match v.calendarmodelKey with
      | none => .ok none
      | some cal =>
        if cal ≠ gregorianModel then .ok none
        else
          match time.data with
          | [] => .error "IndexError: string index out of range"
          | c0 :: _ =>
            if c0 ≠ '+' then .ok none
            else .ok (parse_time_dispatch time precision)

/-- The `for date in dates` minimum fold of
`parse_min_publication_date` (lines 250-260).  `if time and (...)`
tests datetime truthiness, i.e. only that a datetime was parsed. -/
def minDateFold : List ClaimItem → Option Int → Except String (Option Int)
  | [], acc => .ok acc
  | date :: rest, acc => do
    let value ← extract_snak_value date "time"
    match value with
    | none => minDateFold rest acc
    | some v => do
      let t ← parse_time v
      match t with
      | some tv =>
        match acc with
        | none => minDateFold rest (some tv)
        | some m => if tv < m then minDateFold rest (some tv) else minDateFold rest acc
      | none => minDateFold rest acc

/-- `WikiDataParser.parse_min_publication_date` (lines 245-262):
`int(min_date.timestamp())` of the minimum parsed datetime, or `none`. -/
def parse_min_publication_date (claims : Claims) : Except String (Option Int) :=
  match claims.lookup "P577" with
  | none => .ok none
  | some dates => minDateFold dates none

/-- The decoded JSON object of one dump line.  `type`, `id` are read
unconditionally by the source; `labels`, `sitelinks`, `claims` model
key presence. -/
structure DumpLine where
  type : String
  id : String
  labels : Option (List (String × LabelObj))
  sitelinks : Option (List (String × SiteLinkObj))
  claims : Option Claims
deriving Repr, DecidableEq

/-- `loaded["labels"].get("en", next(iter(loaded["labels"].values())))["value"]`
with the `StopIteration` of an empty dict caught to `None`. -/
def sampleLabelOf (labels : List (String × LabelObj)) : Option String :=
  match labels with
  | [] => none
  | first :: _ => some (((labels.lookup "en").getD first.2).value)

/-- The `titles_by_wiki` restriction loop (lines 366-373). -/
def titlesByWiki (sitelinks : List (String × SiteLinkObj))
    (whitelisted_wikis : Option (List String)) : List (String × String) :=
  sitelinks.foldl
    (fun acc wv =>
      match whitelisted_wikis with
      | some wl => if wv.1 ∈ wl then acc ++ [(wv.1, wv.2.title)] else acc
      | none => acc ++ [(wv.1, wv.2.title)])
    []

/-- The tail of `parse_dump_line` after the sitelink restriction (lines
375-388): drop the line when the whitelisted sitelinks are empty, else
assemble the `WikiDataEntry` (claim parsers run in the source evaluation
order: coordinate, instances, country, publication date). -/
def parse_dump_rest (lid : String) (sample_label : Option String)
    (titles : List (String × String)) (claimsKey : Option Claims) :
    Except String (Option WikiDataEntry) :=
  if titles.isEmpty then .ok none
  else
    match claimsKey with
    | none => .error "KeyError: claims"
    | some claims => do
      let coord ← parse_globe_coordinate claims
      let inst ← parse_instances claims
      let country ← parse_country_of_origin claims
      let pub ← parse_min_publication_date claims
      pure (some ⟨lid, sample_label, coord, pub, country, titles, inst⟩)

/-- `WikiDataParser.parse_dump_line` (lines 335-389) from the decoded
object on: skip `property` lines, reject non-`item` lines, demand
`sitelinks` and `labels`, then restrict the sitelinks and continue in
`parse_dump_rest`. -/
def parse_dump_line (line : DumpLine) (whitelisted_wikis : Option (List String)) :
    Except String (Option WikiDataEntry) :=
  if line.type = "property" then .ok none
  else if line.type ≠ "item" then .error "RuntimeError: Found non-item line"
  else
    match line.sitelinks with
    | none => .error "RuntimeError: No sitelinks found in entry"
    | some sitelinks =>
      match line.labels with
      | none => .error "RuntimeError: No labels in entry"
      | some labels =>
        parse_dump_rest line.id (sampleLabelOf labels)
          (titlesByWiki sitelinks whitelisted_wikis) line.claims

/-! ## pipelines.py -/

inductive PageAttr where
  | pStr (s : String)
  | pStrList (l : List String)
  | pCounter (c : List (String × Nat))
  | pOptRat (r : Option Rat)
deriving Repr, DecidableEq

/-- Python attribute lookup on a `WikipediaCanonicalPage` instance:
defined for exactly the seven slots of the dataclass, `none`
(`AttributeError`) otherwise. -/
def cpageGetAttr (p : CPage) : String → Option PageAttr
  | "id" => some (.pStr p.id)
  | "title" => some (.pStr p.title)
  | "aliases" => some (.pStrList p.aliases)
  | "links" => some (.pCounter p.links)
  | "inlinks" => some (.pCounter p.inlinks)
  | "pagerank" => some (.pOptRat p.pagerank)
  | "pagerank_percentile" => some (.pOptRat p.pagerank_percentile)
  | _ => none

/-- `pipelines.write_aliases_to_shelf` (lines 137-141): for every
article, `shelf[article.name] = article.name` and then
`shelf[alias] = article.title` for each alias.  The `article.name`
attribute access is modelled through `cpageGetAttr`. -/
def write_aliases_to_shelf (articles : List CPage) (shelf : Dict String) :
    Except String (Dict String) :=
  articles.foldlM
    (fun (sh : Dict String) article =>
      match cpageGetAttr article "name" with
      | some (.pStr n) =>
        let sh := sh.set n n
        pure (article.aliases.foldl (fun s al => s.set al article.title) sh)
      | some _ => .error "TypeError: unhashable shelf key"
      | none =>
        .error "AttributeError: WikipediaCanonicalPage object has no attribute name")
    shelf

/-- Modelled from the spec: the faithful intent of
`write_aliases_to_shelf` per §3/§4.5 — insert the identity mapping
`article.title -> article.title` and `alias -> article.title` for every
alias.  (Kept separate from the embedding of the code above, which
crashes; used to check the round-trip the claim describes.) -/
def write_aliases_spec (articles : List CPage) (shelf : Dict String) : Dict String :=
  articles.foldl
    (fun (sh : Dict String) article =>
      let sh := sh.set article.title article.title
      article.aliases.foldl (fun s al => s.set al article.title) sh)
    shelf

/-- A cell of the output row dict. -/
inductive Cell where
  | cNone
  | cStr (s : String)
  | cRat (q : Rat)
  | cInt (i : Int)
  | cList (l : List String)
deriving Repr, DecidableEq

abbrev Row := List (String × Cell)

def cellOptStr : Option String → Cell
  | some s => .cStr s
  | none => .cNone

def cellOptRat : Option Rat → Cell
  | some q => .cRat q
  | none => .cNone

def cellOptInt : Option Int → Cell
  | some i => .cInt i
  | none => .cNone

/-- `",".join(...)` over the embedded set. -/
def joinComma (l : List String) : String := String.intercalate "," l

/-- The union-into-accumulator effect of
`parent_finder.all_parents(c, acc)` (`ParentFinder.all_parents`,
`wikidata_parser.py` lines 41-53): add `c` and all its transitive
parents to the accumulator, skipping members already present.  The
transitive-closure itself (`pf`) is a parameter of the model: the
claims under study never inspect it. -/
def allParentsInto (pf : String → List String) (c : String) (acc : List String) :
    List String :=
  (pf c).foldl setAdd acc

/-- The per-wiki column loop of `_row_dict_from_line` (`pipelines.py`
lines 352-369).  `if title:` and `if alias:` are Python truthiness
(`None` or empty string fail); `wiki_to_alias_shelf[wiki]` on a missing
wiki is a `KeyError`. -/
def wikiColumns (entry : WikiDataEntry)
    (wiki_to_article_shelf : List (String × (String → Option CPage)))
    (wiki_to_alias_shelf : List (String × (String → Option String)))
    (row : Row) : Except String Row :=
  wiki_to_article_shelf.foldlM
    (fun (row : Row) ws => do
      let (wiki, shelf) := ws
      let title? := entry.titles_by_wiki.lookup wiki
      if truthyStr title? then
        let title := title?.getD ""
        let article ←
          match shelf title with
          | some a => pure (some a)
          | none =>
            match wiki_to_alias_shelf.lookup wiki with
            | none => .error "KeyError: missing alias shelf"
            | some ashelf =>
              let al := ashelf title
              if truthyStr al then pure (shelf (al.getD "")) else pure none
        match article with
        | some a =>
          pure (row ++ [(wiki ++ "_title", .cStr a.title),
                        (wiki ++ "_pagerank", cellOptRat a.pagerank)])
        | none =>
          pure (row ++ [(wiki ++ "_title", .cStr title),
                        (wiki ++ "_pagerank", .cNone)])
      else
        pure (row ++ [(wiki ++ "_title", .cNone), (wiki ++ "_pagerank", .cNone)]))
    row

/-- The base row dict of `_row_dict_from_line` (lines 341-350):
`entry.sample_coord and entry.sample_coord.latitude` evaluates to `None`
when the coordinate is absent. -/
def baseRow (entry : WikiDataEntry) : Row :=
  [ ("concept_id", .cStr entry.id),
    ("sample_label", cellOptStr entry.sample_label),
    ("coord_latitude",
      match entry.sample_coord with | some c => .cRat c.latitude | none => .cNone),
    ("coord_longitude",
      match entry.sample_coord with | some c => .cRat c.longitude | none => .cNone),
    ("coord_altitude",
      match entry.sample_coord with | some c => .cRat c.altitude | none => .cNone),
    ("coord_precision",
      match entry.sample_coord with | some c => .cRat c.precision | none => .cNone),
    ("country_of_origin", cellOptStr entry.country_of_origin),
    ("publication_date", cellOptInt entry.publication_date) ]

/-- The tail of `_row_dict_from_line` (lines 371-384): the instance-of
columns, then the `entry.direct_subclass_of` attribute read of line 379
and the subclass columns. -/
def rowTail (pf : String → List String) (entry : WikiDataEntry) (row1 : Row) :
    Except String (Option Row) :=
  let recInst := entry.direct_instance_of.foldl
    (fun acc c => allParentsInto pf c acc) []
  let row2 := row1 ++
    [ ("direct_instance_of", .cStr (joinComma entry.direct_instance_of)),
      ("recursive_instance_of", .cStr (joinComma recInst)) ]
  match entryGetAttr entry "direct_subclass_of" with
  | some (.aSet subs) =>
    let recSub := subs.foldl (fun acc c => allParentsInto pf c acc) []
    pure (some (row2 ++
      [ ("direct_subclass_of", .cList subs),
        ("recursive_subclass_of", .cList recSub) ]))
  | some _ => .error "TypeError: direct_subclass_of is not iterable"
  | none =>
    .error "AttributeError: WikiDataEntry object has no attribute direct_subclass_of"

/-- `pipelines._row_dict_from_line` (lines 333-384): parse the line,
return `None` for dropped lines, else build the row dict. -/
def rowDictFromLine (line : DumpLine)
    (wiki_to_article_shelf : List (String × (String → Option CPage)))
    (wiki_to_alias_shelf : List (String × (String → Option String)))
    (pf : String → List String)
    (whitelisted_wikis : Option (List String)) : Except String (Option Row) := do
  let entry? ← parse_dump_line line whitelisted_wikis
  match entry? with
  | none => pure none
  | some entry => do
    let row1 ← wikiColumns entry wiki_to_article_shelf wiki_to_alias_shelf
      (baseRow entry)
    rowTail pf entry row1

/-- Membership function of the live pages dict. -/
def memOf (st : Dict CPage) : String → Bool := fun k => (st.val k).isSome

/-- The terminal target a raw link resolves to under `resolveLink`
(ignoring the file/bad classification). -/
def resTarget (rd : Dict (Option String)) (m : String → Bool) (raw : String) :
    Option String :=
  match resolveLink rd m raw with
  | .target t => some t
  | _ => none

/-- Total contribution of a link list to target `b` under resolution. -/
def contribL (rd : Dict (Option String)) (m : String → Bool)
    (L : List (String × Nat)) (b : String) : Nat :=
  (L.map (fun rc => if resTarget rd m rc.1 = some b then rc.2 else 0)).sum

/-- Well-formedness of a dict built by `Dict.empty` / `Dict.set`. -/
def DictWF {α : Type} (d : Dict α) : Prop :=
  d.doms.Nodup ∧ ∀ k, k ∈ d.doms ↔ (d.val k).isSome

/-- The link list a page had before phase 3 (the reference dict `st0` is
the phase-2 output). -/
def origLinks (st0 : Dict CPage) (a : String) : List (String × Nat) :=
  match st0.val a with
  | some p => p.links
  | none => []

/-- The redirect-chain scenario of spec §8: `A→B`, `B→C`, `C` with links
`{D:1}`, `D` terminal. -/
def chainPages : List ParsedRawPage :=
  [ ⟨"1", "A", some "B", []⟩, ⟨"2", "B", some "C", []⟩,
    ⟨"3", "C", none, [("D", 1)]⟩, ⟨"4", "D", none, []⟩ ]

def chainOut : Dict CPage :=
  match resolve_parsed_pages chainPages with
  | .ok (o, _, _) => o
  | .error _ => Dict.empty

def chainRS : RedirectStats :=
  match resolve_parsed_pages chainPages with
  | .ok (_, r, _) => r
  | .error _ => ⟨0, 0, 0⟩

def chainLS : LinkStats :=
  match resolve_parsed_pages chainPages with
  | .ok (_, _, l) => l
  | .error _ => ⟨0, 0, 0⟩

def chainPageC : CPage :=
  match chainOut.val "C" with
  | some p => p
  | none => ⟨"", "", [], [], [], none, none⟩

def chainPageD : CPage :=
  match chainOut.val "D" with
  | some p => p
  | none => ⟨"", "", [], [], [], none, none⟩

/-! ## C3 : the redirect-cycle scenario -/

/-- Spec scenario 2: pages `A→B`, `B→A`, `C` terminal. -/
def c3pages : List ParsedRawPage :=
  [ ⟨"1", "A", some "B", []⟩, ⟨"2", "B", some "A", []⟩, ⟨"3", "C", none, []⟩ ]

def c3stats : RedirectStats :=
  match resolve_parsed_pages c3pages with
  | .ok (_, r, _) => r
  | .error _ => ⟨77, 77, 77⟩

def c3out : Dict CPage :=
  match resolve_parsed_pages c3pages with
  | .ok (o, _, _) => o
  | .error _ => Dict.empty

/-! ## C5 : the title-cased retry variant -/

/-- A page `P` linking once to the raw key `aB`, and a terminal page
titled `AB` — the upper-first variant of `aB` is exactly `AB`. -/
def c5pages : List ParsedRawPage :=
  [ ⟨"1", "P", none, [("aB", 1)]⟩, ⟨"2", "AB", none, []⟩ ]

def c5out : Dict CPage :=
  match resolve_parsed_pages c5pages with
  | .ok (o, _, _) => o
  | .error _ => Dict.empty

def c5ls : LinkStats :=
  match resolve_parsed_pages c5pages with
  | .ok (_, _, l) => l
  | .error _ => ⟨77, 77, 77⟩

/-- The single-candidate resolution as the amended claim words it:
via the redirects map first (a non-`None` compressed entry wins, and is
asserted to be terminal), else directly against the terminal set. -/
def candidateResolution (rd : Dict (Option String)) (m : String → Bool)
    (link : String) : Option LinkRes :=
  match rd.val link with
  | some (some t) => some (if m t then .target t else .assertFail)
  | some none => if m link then some (.target link) else none
  | none => if m link then some (.target link) else none

def c5mem : String → Bool := fun k => k == "France"

/-! ## C4 and C10 : page ids in the XML handler -/

/-- A well-formed dump page: `<page><title>T</title><id>1</id>
<revision><id>99</id><text>body</text></revision></page>`. -/
def c4events : List HEvent :=
  [ .startElem "page" [], .startElem "title" [], .chars "T", .endElem "title",
    .startElem "id" [], .chars "1", .endElem "id",
    .startElem "revision" [], .startElem "id" [], .chars "99", .endElem "id",
    .startElem "text" [], .chars "body", .endElem "text", .endElem "revision",
    .endElem "page" ]

def c4out : List UnparsedRawPage :=
  match runHandler c4events none with
  | .ok (_, o) => o
  | .error _ => []

/-- A second page with no id element anywhere. -/
def c10events : List HEvent := c4events ++
  [ .startElem "page" [], .startElem "title" [], .chars "U", .endElem "title",
    .startElem "revision" [], .startElem "text" [], .chars "b2", .endElem "text",
    .endElem "revision", .endElem "page" ]

def c10out : List UnparsedRawPage :=
  match runHandler c10events none with
  | .ok (_, o) => o
  | .error _ => []

def c10s0 : HState :=
  { initHState none with
    in_page := true, page_id := some "7",
    page_title := some "T", page_text := some "x", page_redirect := some "R",
    seen_page_revision := true }

def c10s1 : HState :=
  match hEnd c10s0 "page" with
  | .ok (s, _) => s
  | .error _ => c10s0

def c10emit : List UnparsedRawPage :=
  match hEnd c10s0 "page" with
  | .ok (_, o) => o
  | .error _ => []

/-- A minimal accepted dump line: an item with one sitelink. -/
def q1line : DumpLine :=
  { type := "item", id := "Q1", labels := some [("en", ⟨"one"⟩)],
    sitelinks := some [("enwiki", ⟨"One"⟩)], claims := some [] }

def q1entry : WikiDataEntry :=
  ⟨"Q1", some "one", none, none, none, [("enwiki", "One")], []⟩

def ukPage : CPage := ⟨"77", "United Kingdom", ["UK"], [], [], none, none⟩

def c9line : DumpLine :=
  { type := "item", id := "Q64", labels := some [("de", ⟨"Berlin"⟩)],
    sitelinks := some [("dewiki", ⟨"Berlin"⟩)],
    claims := some [("P31", [])] }

/-! ## C8 : PageRank on the 3-node ring -/

/-- The weight matrix the `pagerank` builder produces for the ring
(indices in first-encounter order `X, Y, Z`). -/
def ringW : Fin 3 → Fin 3 → Rat := fun i j => linkWeight ringPages i j

/-! ## C6 : the publication-date minimum -/

/-- The epoch seconds of one `P577` claim item, when its snak extracts
and its time value parses (`none` otherwise). -/
def timeOfItem (item : ClaimItem) : Option Int :=
  match extract_snak_value item "time" with
  | .ok (some v) =>
    match parse_time v with
    | .ok t => t
    | .error _ => none
  | _ => none

def timesOfDates (dates : List ClaimItem) : List Int :=
  dates.filterMap timeOfItem

/-- The multiset of parseable `P577` claim values of a claims dict. -/
def p577Times (claims : Claims) : List Int :=
  match claims.lookup "P577" with
  | none => []
  | some dates => timesOfDates dates

/-- One step of the source's running-minimum update:
`if time and (not min_date or time < min_date): min_date = time`. -/
def optMin (acc : Option Int) (t : Int) : Option Int :=
  match acc with
  | none => some t
  | some m => if t < m then some t else some m

/-- A `P577` claim item carrying one time value (used as the C6
witness input). -/
def c6item (timeStr : String) (prec : Int) : ClaimItem :=
  ⟨some ⟨some "value", some ⟨some "time",
    .timeVal ⟨some timeStr, some prec, some gregorianModel⟩⟩⟩⟩

/-- A claims dict with two parseable `P577` values
(1990-05-03 at day precision and 1980-01-01 at year precision). -/
def c6claims : Claims :=
  [("P577", [c6item "+1990-05-03T00:00:00Z" 11,
             c6item "+1980-01-01T00:00:00Z" 9])]

/-! ## Theorems -/

theorem cnt_nil (k : String) : cnt [] k = 0 := rfl

theorem cnt_cons (a : String × Nat) (l : List (String × Nat)) (k : String) :
    cnt (a :: l) k = (if a.1 = k then a.2 else 0) + cnt l k := by
  simp [cnt]

theorem cnt_bump (l : List (String × Nat)) (k : String) (c : Nat) (s : String) :
    cnt (bump l k c) s = cnt l s + (if s = k then c else 0) := by
  induction l with
  | nil =>
    by_cases h : s = k
    · subst h; simp [bump, cnt]
    · simp [bump, cnt, h, Ne.symm h]
  | cons a t ih =>
    obtain ⟨a1, a2⟩ := a
    by_cases hak : a1 = k
    · subst hak
      by_cases hs : a1 = s
      · subst hs
        simp [bump, cnt_cons]
        omega
      · simp [bump, cnt_cons, hs, Ne.symm hs]
    · simp only [bump, hak, if_false, cnt_cons, ih]
      omega

theorem Dict.mem_set {α : Type} (d : Dict α) (k : String) (v : α) (x : String) :
    (d.set k v).mem x = if x = k then true else d.mem x := by
  by_cases h : x = k <;> simp [Dict.set, Dict.mem, h]

theorem Dict.val_set_self {α : Type} (d : Dict α) (k : String) (v : α) :
    (d.set k v).val k = some v := by simp [Dict.set]

theorem Dict.val_set_other {α : Type} (d : Dict α) (k : String) (v : α) (x : String)
    (h : x ≠ k) : (d.set k v).val x = d.val x := by simp [Dict.set, h]

/-! ## Infrastructure for the link/inlink symmetry proof (phase 3) -/

theorem Dict.isSome_set_of_isSome {α : Type} (d : Dict α) (k : String) (v : α)
    (h : (d.val k).isSome) (x : String) :
    ((d.set k v).val x).isSome = (d.val x).isSome := by
  by_cases hx : x = k
  · subst hx; simp [Dict.set, h]
  · simp [Dict.set, hx]

theorem Dict.doms_set_of_isSome {α : Type} (d : Dict α) (k : String) (v : α)
    (h : (d.val k).isSome) : (d.set k v).doms = d.doms := by
  simp [Dict.set, h]

theorem contribL_nil (rd : Dict (Option String)) (m : String → Bool) (b : String) :
    contribL rd m [] b = 0 := rfl

theorem contribL_cons (rd : Dict (Option String)) (m : String → Bool)
    (rc : String × Nat) (L : List (String × Nat)) (b : String) :
    contribL rd m (rc :: L) b
      = (if resTarget rd m rc.1 = some b then rc.2 else 0) + contribL rd m L b := by
  simp [contribL]

theorem stepCand_target_mem (rd : Dict (Option String)) (m : String → Bool)
    (link t : String) (h : stepCand rd m link = some (.target t)) : m t = true := by
  unfold stepCand at h
  rcases hv : rd.val link with _ | ov
  · rw [hv] at h
    by_cases hm : m link
    · simp [hm] at h
      exact h ▸ hm
    · simp [hm] at h
  · rcases ov with _ | t2
    · rw [hv] at h
      by_cases hm : m link
      · simp [hm] at h
        exact h ▸ hm
      · simp [hm] at h
    · rw [hv] at h
      by_cases hm : m t2
      · simp [hm] at h
        exact h ▸ hm
      · simp [hm] at h

theorem resolveLink_target_mem (rd : Dict (Option String)) (m : String → Bool)
    (raw t : String) (h : resolveLink rd m raw = .target t) : m t = true := by
  unfold resolveLink at h
  split at h
  next r hr =>
    subst h
    exact stepCand_target_mem rd m raw t hr
  next hr =>
    split at h
    next r hr2 =>
      subst h
      exact stepCand_target_mem rd m (pyCapitalize raw) t hr2
    next hr2 =>
      split at h <;> simp at h

/-- What one page's link-rewriting loop does: membership of the live
dict is unchanged; the produced `resolved_links` counter adds the
resolution contribution of the processed items; every page keeps its
links and title, and gains inlink count from `src` exactly equal to
`src`'s contribution to it. -/
theorem links3_ok (rd : Dict (Option String)) (src : String) :
    ∀ (items resolved : List (String × Nat)) (st : Dict CPage) (stats : LinkStats)
      (out : List (String × Nat) × Dict CPage × LinkStats),
      links3 rd src items resolved st stats = .ok out →
      (out.2.1.mem = st.mem) ∧
      (∀ b, cnt out.1 b = cnt resolved b + contribL rd st.mem items b) ∧
      (∀ b pb2, out.2.1.val b = some pb2 → ∃ pb, st.val b = some pb ∧
        pb2.links = pb.links ∧ pb2.title = pb.title ∧
        ∀ a, cnt pb2.inlinks a = cnt pb.inlinks a
          + (if a = src then contribL rd st.mem items b else 0)) := by
  intro items
  induction items with
  | nil =>
    intro resolved st stats out h
    simp only [links3] at h
    cases h
    refine ⟨rfl, fun b => by simp [contribL_nil], fun b pb2 hb => ?_⟩
    exact ⟨pb2, hb, rfl, rfl, fun a => by simp [contribL_nil]⟩
  | cons rc items ih =>
    obtain ⟨raw, count⟩ := rc
    intro resolved st stats out h
    simp only [links3] at h
    split at h
    case _ t heq =>
      have heq2 : resolveLink rd st.mem raw = .target t := heq
      have hrt : resTarget rd st.mem raw = some t := by
        simp [resTarget, heq2]
      have hmemt : st.mem t = true := resolveLink_target_mem rd st.mem raw t heq2
      have hsome : (st.val t).isSome := hmemt
      rcases hvt : st.val t with _ | q
      · rw [hvt] at hsome; cases hsome
      · rw [hvt] at h
        set q2 : CPage := { q with inlinks := bump q.inlinks src count } with hq2
        set st2 : Dict CPage := st.set t q2 with hst2
        have hmemeq : st2.mem = st.mem := by
          funext x
          rw [hst2, Dict.mem_set]
          by_cases hx : x = t
          · subst hx; simp [Dict.mem, hsome]
          · simp [hx]
        obtain ⟨ih1, ih2, ih3⟩ := ih (bump resolved t count) st2 _ out h
        rw [hmemeq] at ih1 ih2 ih3
        refine ⟨ih1, fun b => ?_, fun b pb2 hb => ?_⟩
        · rw [ih2 b, cnt_bump, contribL_cons, hrt]
          by_cases hbt : b = t
          · subst hbt; simp
            omega
          · have : ¬ t = b := fun hh => hbt hh.symm
            simp [hbt, this]
        · obtain ⟨pb1, hpb1, hlinks, htitle, hinl⟩ := ih3 b pb2 hb
          by_cases hbt : b = t
          · subst hbt
            rw [hst2, Dict.val_set_self] at hpb1
            injection hpb1 with hpb1e
            subst hpb1e
            refine ⟨q, hvt, hlinks, htitle, fun a => ?_⟩
            rw [hinl a, hq2]
            show cnt (bump q.inlinks src count) a + _ = _
            rw [cnt_bump, contribL_cons, hrt]
            by_cases has : a = src <;> (simp [has]; try omega)
          · rw [hst2, Dict.val_set_other st t q2 b hbt] at hpb1
            refine ⟨pb1, hpb1, hlinks, htitle, fun a => ?_⟩
            rw [hinl a, contribL_cons, hrt]
            have : ¬ some t = some b := by
              intro hh; exact hbt (Option.some.inj hh).symm
            simp [this]
    case _ heq =>
      have heq2 : resolveLink rd st.mem raw = .fileLink := heq
      have hrt : resTarget rd st.mem raw = none := by simp [resTarget, heq2]
      obtain ⟨ih1, ih2, ih3⟩ := ih resolved st _ out h
      refine ⟨ih1, fun b => ?_, fun b pb2 hb => ?_⟩
      · rw [ih2 b, contribL_cons, hrt]; simp
      · obtain ⟨pb1, hpb1, hlinks, htitle, hinl⟩ := ih3 b pb2 hb
        refine ⟨pb1, hpb1, hlinks, htitle, fun a => ?_⟩
        rw [hinl a, contribL_cons, hrt]; simp
    case _ heq =>
      have heq2 : resolveLink rd st.mem raw = .badLink := heq
      have hrt : resTarget rd st.mem raw = none := by simp [resTarget, heq2]
      obtain ⟨ih1, ih2, ih3⟩ := ih resolved st _ out h
      refine ⟨ih1, fun b => ?_, fun b pb2 hb => ?_⟩
      · rw [ih2 b, contribL_cons, hrt]; simp
      · obtain ⟨pb1, hpb1, hlinks, htitle, hinl⟩ := ih3 b pb2 hb
        refine ⟨pb1, hpb1, hlinks, htitle, fun a => ?_⟩
        rw [hinl a, contribL_cons, hrt]; simp
    case _ heq =>
      cases h

theorem dictWF_empty {α : Type} : DictWF (Dict.empty (α := α)) := by
  constructor
  · exact List.nodup_nil
  · intro k; simp [Dict.empty]

theorem dictWF_set {α : Type} (d : Dict α) (k : String) (v : α) (h : DictWF d) :
    DictWF (d.set k v) := by
  obtain ⟨hnd, hiff⟩ := h
  by_cases hk : (d.val k).isSome
  · constructor
    · simpa [Dict.set, hk] using hnd
    · intro x
      simp only [Dict.set, hk, if_true]
      by_cases hx : x = k
      · subst hx; simp [(hiff x).mpr hk]
      · simp [hx, hiff x]
  · constructor
    · simp only [Dict.set, hk, if_false]
      refine List.Nodup.append hnd (List.nodup_singleton k) ?_
      intro x hx hxk
      rw [List.mem_singleton] at hxk
      subst hxk
      exact hk ((hiff x).mp hx)
    · intro x
      simp only [Dict.set, hk, if_false, List.mem_append, List.mem_singleton]
      by_cases hx : x = k
      · subst hx; simp
      · simp [hx, hiff x]

theorem Dict.mem_fun_set_of_isSome {α : Type} (d : Dict α) (k : String) (v : α)
    (h : (d.val k).isSome) : (d.set k v).mem = d.mem := by
  funext x
  by_cases hx : x = k
  · subst hx; simp [Dict.set, Dict.mem, h]
  · simp [Dict.set, Dict.mem, hx]

/-- Invariant of the phase-1 fold: the terminal dict is well formed, maps
each key to a page titled by that key with empty inlinks and empty
aliases, and the redirects dict is well formed. -/
theorem phase1_ok (ps : List ParsedRawPage) :
    DictWF (phase1 ps).1 ∧ DictWF (phase1 ps).2 ∧
    ∀ k pk, (phase1 ps).1.val k = some pk →
      pk.title = k ∧ pk.inlinks = [] ∧ pk.aliases = [] := by
  suffices h : ∀ (acc : Dict CPage × Dict (Option String)),
      DictWF acc.1 → DictWF acc.2 →
      (∀ k pk, acc.1.val k = some pk → pk.title = k ∧ pk.inlinks = [] ∧ pk.aliases = []) →
      DictWF (ps.foldl step1 acc).1 ∧ DictWF (ps.foldl step1 acc).2 ∧
      ∀ k pk, (ps.foldl step1 acc).1.val k = some pk →
        pk.title = k ∧ pk.inlinks = [] ∧ pk.aliases = [] by
    exact h (Dict.empty, Dict.empty) dictWF_empty dictWF_empty
      (by intro k pk hk; simp [Dict.empty] at hk)
  induction ps with
  | nil => intro acc h1 h2 h3; exact ⟨h1, h2, h3⟩
  | cons p ps ih =>
    intro acc h1 h2 h3
    simp only [List.foldl_cons]
    have hterm : ∀ (term : Dict CPage),
        DictWF term →
        (∀ k pk, term.val k = some pk → pk.title = k ∧ pk.inlinks = [] ∧ pk.aliases = []) →
        ∀ k pk, (term.set p.title
            (⟨p.id, p.title, [], p.links, [], none, none⟩ : CPage)).val k = some pk →
          pk.title = k ∧ pk.inlinks = [] ∧ pk.aliases = [] := by
      intro term hwf hinv k pk hk
      by_cases hkp : k = p.title
      · subst hkp
        rw [Dict.val_set_self] at hk
        injection hk with he
        subst he
        exact ⟨rfl, rfl, rfl⟩
      · rw [Dict.val_set_other _ _ _ _ hkp] at hk
        exact hinv k pk hk
    rcases hr : p.redirect with _ | r
    · simp only [step1, hr]
      exact ih _ (dictWF_set _ _ _ h1) h2 (hterm acc.1 h1 h3)
    · by_cases hre : r = ""
      · subst hre
        simp only [step1, hr, if_pos rfl]
        exact ih _ (dictWF_set _ _ _ h1) h2 (hterm acc.1 h1 h3)
      · simp only [step1, hr, if_neg hre]
        exact ih _ h1 (dictWF_set _ _ _ h2) h3

/-- `addAlias` only touches the target page's aliases: domain, presence,
titles, links and inlinks are all preserved. -/
theorem addAlias_preserves (term0 term : Dict CPage) (target title : String)
    (hdoms : term.doms = term0.doms)
    (hsome : ∀ k, (term.val k).isSome = (term0.val k).isSome)
    (hrel : ∀ k pk1, term.val k = some pk1 → ∃ pk0, term0.val k = some pk0 ∧
      pk1.title = pk0.title ∧ pk1.links = pk0.links ∧ pk1.inlinks = pk0.inlinks) :
    (addAlias term target title).doms = term0.doms ∧
    (∀ k, ((addAlias term target title).val k).isSome = (term0.val k).isSome) ∧
    (∀ k pk1, (addAlias term target title).val k = some pk1 →
      ∃ pk0, term0.val k = some pk0 ∧
        pk1.title = pk0.title ∧ pk1.links = pk0.links ∧ pk1.inlinks = pk0.inlinks) := by
  unfold addAlias
  rcases hv : term.val target with _ | q
  · exact ⟨hdoms, hsome, hrel⟩
  · have hq : (term.val target).isSome := by rw [hv]; rfl
    refine ⟨?_, ?_, ?_⟩
    · rw [Dict.doms_set_of_isSome _ _ _ hq, hdoms]
    · intro k
      rw [Dict.isSome_set_of_isSome _ _ _ hq k]
      exact hsome k
    · intro k pk1 hk
      by_cases hkt : k = target
      · subst hkt
        rw [Dict.val_set_self] at hk
        injection hk with he
        obtain ⟨pk0, h0, ht, hl, hi⟩ := hrel k q hv
        exact ⟨pk0, h0, by rw [← he]; exact ht, by rw [← he]; exact hl,
          by rw [← he]; exact hi⟩
      · rw [Dict.val_set_other _ _ _ _ hkt] at hk
        exact hrel k pk1 hk

/-- The phase-2 fold only rewrites redirect values, statistics and
aliases; the terminal pages keep their domain, presence, titles, links
and inlinks. -/
theorem phase2_fold (term0 : Dict CPage) (fuel : Nat) :
    ∀ (ts : List String)
      (st : Dict CPage × Dict (Option String) × RedirectStats × Bool),
      st.1.doms = term0.doms →
      (∀ k, (st.1.val k).isSome = (term0.val k).isSome) →
      (∀ k pk1, st.1.val k = some pk1 → ∃ pk0, term0.val k = some pk0 ∧
        pk1.title = pk0.title ∧ pk1.links = pk0.links ∧ pk1.inlinks = pk0.inlinks) →
      (ts.foldl (step2 fuel) st).1.doms = term0.doms ∧
      (∀ k, ((ts.foldl (step2 fuel) st).1.val k).isSome = (term0.val k).isSome) ∧
      (∀ k pk1, (ts.foldl (step2 fuel) st).1.val k = some pk1 →
        ∃ pk0, term0.val k = some pk0 ∧
          pk1.title = pk0.title ∧ pk1.links = pk0.links ∧ pk1.inlinks = pk0.inlinks) := by
  intro ts
  induction ts with
  | nil => intro st h1 h2 h3; exact ⟨h1, h2, h3⟩
  | cons t ts ih =>
    intro st h1 h2 h3
    simp only [List.foldl_cons]
    have key : (step2 fuel st t).1.doms = term0.doms ∧
        (∀ k, ((step2 fuel st t).1.val k).isSome = (term0.val k).isSome) ∧
        (∀ k pk1, (step2 fuel st t).1.val k = some pk1 →
          ∃ pk0, term0.val k = some pk0 ∧
            pk1.title = pk0.title ∧ pk1.links = pk0.links ∧
            pk1.inlinks = pk0.inlinks) := by
      unfold step2
      split
      · exact ⟨h1, h2, h3⟩
      · split
        · exact ⟨h1, h2, h3⟩
        · exact addAlias_preserves term0 st.1 _ t h1 h2 h3
        · exact ⟨h1, h2, h3⟩
        · exact ⟨h1, h2, h3⟩
    exact ih (step2 fuel st t) key.1 key.2.1 key.2.2

/-- Induction along the outer page loop of phase 3: after processing the
titles `P ++ ts`, every page's rewritten links count the resolution
contribution of its original links, and every page's inlinks count
exactly the contributions of the processed pages towards it. -/
theorem phase3_fold (rd : Dict (Option String)) (st0 : Dict CPage) :
    ∀ (ts P : List String) (st : Dict CPage) (stats : LinkStats)
      (out : Dict CPage × LinkStats),
      (∀ u ∈ ts, u ∉ P) → ts.Nodup →
      st.mem = st0.mem →
      (∀ k pk, st.val k = some pk → pk.title = k) →
      (∀ b pb, st.val b = some pb → ∀ a,
        cnt pb.inlinks a
          = if a ∈ P then contribL rd st0.mem (origLinks st0 a) b else 0) →
      (∀ a pa, st.val a = some pa →
        (a ∈ P → ∀ b, cnt pa.links b = contribL rd st0.mem (origLinks st0 a) b) ∧
        (a ∉ P → pa.links = origLinks st0 a)) →
      List.foldlM (step3 rd) (st, stats) ts = .ok out →
      out.1.mem = st0.mem ∧
      (∀ b pb, out.1.val b = some pb → ∀ a,
        cnt pb.inlinks a
          = if a ∈ P ++ ts then contribL rd st0.mem (origLinks st0 a) b else 0) ∧
      (∀ a pa, out.1.val a = some pa → a ∈ P ++ ts →
        ∀ b, cnt pa.links b = contribL rd st0.mem (origLinks st0 a) b) := by
  intro ts
  induction ts with
  | nil =>
    intro P st stats out _ _ hmem htitle hinl hlnk h
    simp only [List.foldlM_nil] at h
    cases h
    refine ⟨hmem, ?_, ?_⟩
    · intro b pb hb a
      simpa using hinl b pb hb a
    · intro a pa ha hmem2 b
      rw [List.append_nil] at hmem2
      exact (hlnk a pa ha).1 hmem2 b
  | cons t ts ih =>
    intro P st stats out hdisj hnd hmem htitle hinl hlnk h
    have htP : t ∉ P := hdisj t (List.mem_cons_self t ts)
    have hdisj1 : ∀ u ∈ ts, u ∉ P ++ [t] := by
      intro u hu
      simp only [List.mem_append, List.mem_singleton]
      push_neg
      refine ⟨hdisj u (List.mem_cons_of_mem t hu), ?_⟩
      intro he
      exact (List.nodup_cons.mp hnd).1 (he ▸ hu)
    have hnd1 := (List.nodup_cons.mp hnd).2
    have finish : ∀ (st1 : Dict CPage) (stats1 : LinkStats),
        st1.mem = st0.mem →
        (∀ k pk, st1.val k = some pk → pk.title = k) →
        (∀ b pb, st1.val b = some pb → ∀ a,
          cnt pb.inlinks a
            = if a ∈ P ++ [t] then contribL rd st0.mem (origLinks st0 a) b else 0) →
        (∀ a pa, st1.val a = some pa →
          (a ∈ P ++ [t] → ∀ b,
            cnt pa.links b = contribL rd st0.mem (origLinks st0 a) b) ∧
          (a ∉ P ++ [t] → pa.links = origLinks st0 a)) →
        List.foldlM (step3 rd) (st1, stats1) ts = .ok out →
        out.1.mem = st0.mem ∧
        (∀ b pb, out.1.val b = some pb → ∀ a,
          cnt pb.inlinks a
            = if a ∈ P ++ t :: ts then contribL rd st0.mem (origLinks st0 a) b
              else 0) ∧
        (∀ a pa, out.1.val a = some pa → a ∈ P ++ t :: ts →
          ∀ b, cnt pa.links b = contribL rd st0.mem (origLinks st0 a) b) := by
      intro st1 stats1 m1 t1 i1 l1 hfold
      obtain ⟨o1, o2, o3⟩ := ih (P ++ [t]) st1 stats1 out hdisj1 hnd1 m1 t1 i1 l1
        hfold
      refine ⟨o1, ?_, ?_⟩
      · intro b pb hb a
        have := o2 b pb hb a
        simpa [List.append_assoc] using this
      · intro a pa ha hmemb b
        refine o3 a pa ha ?_ b
        simpa [List.append_assoc] using hmemb
    rw [List.foldlM_cons] at h
    rcases hstep : step3 rd (st, stats) t with e | s1
    · rw [hstep] at h
      replace h : (Except.error e : Except String (Dict CPage × LinkStats))
          = .ok out := h
      cases h
    · rw [hstep] at h
      replace h : List.foldlM (step3 rd) s1 ts = .ok out := h
      unfold step3 at hstep
      dsimp only at hstep
      rcases hp : st.val t with _ | p
      · rw [hp] at hstep
        replace hstep : (Except.ok (st, stats)
            : Except String (Dict CPage × LinkStats)) = .ok s1 := hstep
        injection hstep with hs1
        rw [← hs1] at h
        -- the page dict is unchanged; t holds no page
        have hC0 : origLinks st0 t = [] := by
          have hiss : (st0.val t).isSome = false := by
            have hmt := congrFun hmem t
            simp only [Dict.mem] at hmt
            rw [hp] at hmt
            exact hmt.symm
          unfold origLinks
          rcases hv0 : st0.val t with _ | q
          · rfl
          · rw [hv0] at hiss; cases hiss
        refine finish st stats hmem htitle ?_ ?_ h
        · intro b pb hb a
          have hbase := hinl b pb hb a
          by_cases haP : a ∈ P
          · simpa [haP] using hbase
          · by_cases hat : a = t
            · subst hat
              simp only [haP, if_false] at hbase
              simp [haP, hbase, hC0, contribL]
            · simp only [haP, if_false] at hbase
              simp [List.mem_append, haP, hat, hbase]
        · intro a pa ha
          constructor
          · intro hmema b
            rcases List.mem_append.mp hmema with hl2 | hr2
            · exact (hlnk a pa ha).1 hl2 b
            · rw [List.mem_singleton] at hr2
              subst hr2
              rw [hp] at ha
              cases ha
          · intro hmema
            refine (hlnk a pa ha).2 ?_
            intro haP
            exact hmema (List.mem_append_left [t] haP)
      · rw [hp] at hstep
        have htt : p.title = t := htitle t p hp
        have hplinks : p.links = origLinks st0 t := (hlnk t p hp).2 htP
        replace hstep :
            (links3 rd p.title p.links [] st stats >>= fun r =>
              match r.2.1.val t with
              | some p2 =>
                pure (r.2.1.set t { p2 with links := r.1 }, r.2.2)
              | none => pure (r.2.1, r.2.2)) = Except.ok s1 := hstep
        rcases hl : links3 rd p.title p.links [] st stats with e | res3
        · rw [hl] at hstep
          replace hstep : (Except.error e
              : Except String (Dict CPage × LinkStats)) = .ok s1 := hstep
          cases hstep
        · obtain ⟨resolved, stX, statsX⟩ := res3
          rw [hl] at hstep
          replace hstep :
              (match stX.val t with
               | some p2 =>
                 (pure (stX.set t { p2 with links := resolved }, statsX)
                   : Except String (Dict CPage × LinkStats))
               | none => pure (stX, statsX)) = Except.ok s1 := hstep
          obtain ⟨lA, lB, lC⟩ := links3_ok rd p.title p.links [] st stats
            (resolved, stX, statsX) hl
          have hsomeX : (stX.val t).isSome := by
            have hmt := congrFun lA t
            simp only [Dict.mem] at hmt
            rw [hp] at hmt
            rw [hmt]
            rfl
          rcases hp2 : stX.val t with _ | p2
          · rw [hp2] at hsomeX; cases hsomeX
          · rw [hp2] at hstep
            replace hstep : (Except.ok (stX.set t { p2 with links := resolved },
                statsX) : Except String (Dict CPage × LinkStats))
                = .ok s1 := hstep
            injection hstep with hs1
            rw [← hs1] at h
            set q : CPage := { p2 with links := resolved } with hq
            set st1 : Dict CPage := stX.set t q with hst1
            have hCt : ∀ b, contribL rd st.mem p.links b
                = contribL rd st0.mem (origLinks st0 t) b := by
              intro b
              rw [hmem, hplinks]
            have hmem1 : st1.mem = st0.mem := by
              rw [hst1, Dict.mem_fun_set_of_isSome stX t q (by rw [hp2]; rfl),
                lA, hmem]
            have htitle1 : ∀ k pk, st1.val k = some pk → pk.title = k := by
              intro k pk hk
              by_cases hkt : k = t
              · subst hkt
                rw [hst1, Dict.val_set_self] at hk
                injection hk with he
                obtain ⟨pb, hpb, _, ht2, _⟩ := lC k p2 hp2
                rw [hp] at hpb
                injection hpb with hpbe
                rw [← he, hq]
                show p2.title = k
                rw [ht2, ← hpbe, htt]
              · rw [hst1, Dict.val_set_other _ _ _ _ hkt] at hk
                obtain ⟨pb, hpb, _, ht2, _⟩ := lC k pk hk
                rw [ht2]
                exact htitle k pb hpb
            have hinl1 : ∀ b pb, st1.val b = some pb → ∀ a,
                cnt pb.inlinks a
                  = if a ∈ P ++ [t]
                    then contribL rd st0.mem (origLinks st0 a) b else 0 := by
              intro b pb hb a
              have hsplit : ∀ (pbX pb0 : CPage), st.val b = some pb0 →
                  pb.inlinks = pbX.inlinks →
                  cnt pbX.inlinks a = cnt pb0.inlinks a
                    + (if a = p.title then contribL rd st.mem p.links b else 0) →
                  cnt pb.inlinks a
                    = if a ∈ P ++ [t]
                      then contribL rd st0.mem (origLinks st0 a) b else 0 := by
                intro pbX pb0 hb0 hinle heq
                rw [hinle, heq, hinl b pb0 hb0 a, htt, hCt]
                by_cases haP : a ∈ P
                · have hat : a ≠ t := fun he => htP (he ▸ haP)
                  simp [haP, hat]
                · by_cases hat : a = t
                  · subst hat
                    simp [haP]
                  · simp [haP, hat]
              by_cases hbt : b = t
              · subst hbt
                rw [hst1, Dict.val_set_self] at hb
                injection hb with he
                obtain ⟨pb0, hpb0, _, _, hinle⟩ := lC b p2 hp2
                refine hsplit p2 pb0 hpb0 ?_ (hinle a)
                rw [← he, hq]
              · rw [hst1, Dict.val_set_other _ _ _ _ hbt] at hb
                obtain ⟨pb0, hpb0, _, _, hinle⟩ := lC b pb hb
                exact hsplit pb pb0 hpb0 rfl (hinle a)
            have hlnk1 : ∀ a pa, st1.val a = some pa →
                (a ∈ P ++ [t] → ∀ b, cnt pa.links b
                  = contribL rd st0.mem (origLinks st0 a) b) ∧
                (a ∉ P ++ [t] → pa.links = origLinks st0 a) := by
              intro a pa ha
              by_cases hat : a = t
              · subst hat
                rw [hst1, Dict.val_set_self] at ha
                injection ha with he
                constructor
                · intro _ b
                  rw [← he, hq]
                  show cnt resolved b = _
                  rw [lB b, hCt]
                  simp [cnt]
                · intro hmema
                  exact absurd (List.mem_append_right P (List.mem_singleton_self a))
                    hmema
              · rw [hst1, Dict.val_set_other _ _ _ _ hat] at ha
                obtain ⟨pb0, hpb0, hle, _, _⟩ := lC a pa ha
                constructor
                · intro hmema b
                  rcases List.mem_append.mp hmema with hl2 | hr2
                  · rw [hle]
                    exact (hlnk a pb0 hpb0).1 hl2 b
                  · rw [List.mem_singleton] at hr2
                    exact absurd hr2 hat
                · intro hmema
                  rw [hle]
                  refine (hlnk a pb0 hpb0).2 ?_
                  intro haP
                  exact hmema (List.mem_append_left [t] haP)
            exact finish st1 statsX hmem1 htitle1 hinl1 hlnk1 h

/-- C7: after the resolver finishes, for every ordered pair of terminal
articles `(a, b)`, the count `a.links[b]` equals `b.inlinks[a]`: both
sides equal the total resolution contribution of `a`'s original links
towards `b`, the inlink side being contributed exactly by the resolved
outlinks of the pages that point at `b`. -/
theorem c7_link_inlink_symmetry (ps : List ParsedRawPage)
    (out : Dict CPage) (rs : RedirectStats) (ls : LinkStats)
    (hres : resolve_parsed_pages ps = .ok (out, rs, ls)) :
    ∀ a b pa pb, out.val a = some pa → out.val b = some pb →
      cnt pa.links b = cnt pb.inlinks a := by
  obtain ⟨hwf1, hwf2, hpages1⟩ := phase1_ok ps
  unfold resolve_parsed_pages at hres
  replace hres : (phase2 (phase1 ps).1 (phase1 ps).2 >>= fun r2 =>
      phase3 r2.2.1 r2.1 >>= fun r3 =>
        pure (r3.1, r2.2.2, r3.2)) = .ok (out, rs, ls) := hres
  rcases hph2 : phase2 (phase1 ps).1 (phase1 ps).2 with e | r2
  · rw [hph2] at hres
    replace hres : (Except.error e
        : Except String (Dict CPage × RedirectStats × LinkStats))
        = .ok (out, rs, ls) := hres
    cases hres
  · rw [hph2] at hres
    replace hres : (phase3 r2.2.1 r2.1 >>= fun r3 =>
        pure (r3.1, r2.2.2, r3.2)) = .ok (out, rs, ls) := hres
    rcases hph3 : phase3 r2.2.1 r2.1 with e | r3
    · rw [hph3] at hres
      replace hres : (Except.error e
          : Except String (Dict CPage × RedirectStats × LinkStats))
          = .ok (out, rs, ls) := hres
      cases hres
    · rw [hph3] at hres
      replace hres : (Except.ok (r3.1, r2.2.2, r3.2)
          : Except String (Dict CPage × RedirectStats × LinkStats))
          = .ok (out, rs, ls) := hres
      injection hres with he
      have hout : r3.1 = out := congrArg Prod.fst he
      -- properties of the phase-2 terminal dict
      unfold phase2 at hph2
      dsimp only at hph2
      split at hph2
      · cases hph2
      · split at hph2
        · injection hph2 with he2
          obtain ⟨f1, f2, f3⟩ := phase2_fold (phase1 ps).1
            ((phase1 ps).2.doms.length + 2) (phase1 ps).2.doms
            ((phase1 ps).1, (phase1 ps).2, ⟨0, 0, 0⟩, false)
            rfl (fun k => rfl)
            (fun k pk1 hk => ⟨pk1, hk, rfl, rfl, rfl⟩)
          set term1 : Dict CPage := ((phase1 ps).2.doms.foldl
            (step2 ((phase1 ps).2.doms.length + 2))
            ((phase1 ps).1, (phase1 ps).2, ⟨0, 0, 0⟩, false)).1 with hterm1
          have hr21 : r2.1 = term1 := (congrArg Prod.fst he2).symm
          -- initial invariants for phase 3 over st0 := term1
          have htitle1 : ∀ k pk, term1.val k = some pk → pk.title = k := by
            intro k pk hk
            obtain ⟨pk0, hpk0, ht, _, _⟩ := f3 k pk hk
            rw [ht]
            exact (hpages1 k pk0 hpk0).1
          have hinl1 : ∀ b pb, term1.val b = some pb → pb.inlinks = [] := by
            intro b pb hb
            obtain ⟨pk0, hpk0, _, _, hi⟩ := f3 b pb hb
            rw [hi]
            exact (hpages1 b pk0 hpk0).2.1
          have hnodup1 : term1.doms.Nodup := by
            rw [f1]
            exact hwf1.1
          have hwfterm1 : ∀ k, k ∈ term1.doms ↔ (term1.val k).isSome := by
            intro k
            rw [f1, hwf1.2 k, ← f2 k]
          -- run the phase-3 induction from the empty processed set
          have hfold : List.foldlM (step3 r2.2.1) (term1, ⟨0, 0, 0⟩) term1.doms
              = .ok r3 := by
            rw [← hr21]
            exact hph3
          obtain ⟨o1, o2, o3⟩ := phase3_fold r2.2.1 term1 term1.doms [] term1
            ⟨0, 0, 0⟩ r3 (fun u _ => List.not_mem_nil u) hnodup1 rfl htitle1
            (fun b pb hb a => by simp [hinl1 b pb hb, cnt_nil])
            (fun a pa ha => ⟨fun hmem => absurd hmem (List.not_mem_nil a),
              fun _ => by unfold origLinks; rw [ha]⟩)
            hfold
          -- conclude the symmetry
          intro a b pa pb hpa hpb
          rw [← hout] at hpa hpb
          have hamem : a ∈ term1.doms := by
            rw [hwfterm1 a]
            have := congrFun o1 a
            simp only [Dict.mem] at this
            rw [← this, hpa]
            rfl
          have hlinks := o3 a pa hpa (by simpa using hamem) b
          have hinls := o2 b pb hpb a
          rw [hlinks, hinls]
          simp [hamem]
        · cases hph2

/-- Witness for C7 at the concrete redirect-chain scenario: the resolver
succeeds, and the `C → D` outlink count equals `D`'s inlink count from
`C` (both are 1). -/
theorem c7_witness :
    cnt chainPageC.links "D" = cnt chainPageD.inlinks "C"
      ∧ cnt chainPageC.links "D" = 1 := by
  refine ⟨?_, rfl⟩
  exact c7_link_inlink_symmetry chainPages chainOut chainRS chainLS rfl
    "C" "D" chainPageC chainPageD rfl rfl

/-- C3 counterexample: on the cycle scenario the resolver reports
`(resolved, cycles, dangling) = (0, 1, 1)`, not the `(0, 2, 0)` the
claim states.  Chasing `A` walks `B, A, B` and records one cycle,
compressing `redirects[A]` to `None`; chasing `B` then steps from `A`
onto that `None` pointer, which is in neither dict, and is recorded as
dangling. -/
theorem c3_counterexample :
    c3stats = ⟨0, 1, 1⟩ ∧ c3stats ≠ ⟨0, 2, 0⟩ := by
  constructor
  · rfl
  · intro h
    rw [show c3stats = ⟨0, 1, 1⟩ from rfl] at h
    cases h

/-- C3 amended: the cycle scenario yields `resolved=0, cycles=1,
dangling=1` (the second member of the cycle follows the compressed
`None` pointer and counts as unresolvable), and no terminal article
receives any alias — the only terminal page `C` ends with an empty
alias set. -/
theorem c3_amended :
    c3stats = ⟨0, 1, 1⟩ ∧ c3out.doms = ["C"]
      ∧ (c3out.val "C").map (fun p => p.aliases) = some [] := by
  exact ⟨rfl, rfl, rfl⟩

/-- C5 counterexample: the claim predicts the unresolved raw link `aB`
is retried as `AB` (first code point upper-cased, rest unchanged), which
is a terminal title and would resolve; but the code retries
`"aB".capitalize() = "Ab"` and the link stays unresolved: `P` ends with
no link to `AB` and the occurrence is counted as a bad link. -/
theorem c5_counterexample :
    upperFirstOnly "aB" = "AB"
      ∧ (c5out.val "AB").isSome = true
      ∧ (c5out.val "P").map (fun p => cnt p.links "AB") = some 0
      ∧ c5ls = ⟨0, 1, 0⟩
      ∧ pyCapitalize "aB" = "Ab" := by
  exact ⟨rfl, rfl, rfl, rfl, rfl⟩

theorem candidateResolution_eq_stepCand (rd : Dict (Option String))
    (m : String → Bool) (link : String) :
    candidateResolution rd m link = stepCand rd m link := by
  unfold candidateResolution stepCand
  rcases rd.val link with _ | ov
  · rfl
  · rcases ov with _ | t <;> rfl

/-- C5 amended: for every raw link key whose own resolution fails, the
resolver retries exactly `raw.capitalize()` — the variant whose first
code point is upper-cased and all remaining code points are
lower-cased — resolved via the redirects map first and otherwise
directly against the terminal set, falling back to the File/Image
classification. -/
theorem c5_amended :
    (∀ rd m raw, stepCand rd m raw = none →
      resolveLink rd m raw
        = (match candidateResolution rd m (pyCapitalize raw) with
           | some r => r
           | none =>
             if raw.startsWith "File:" || raw.startsWith "Image:" then .fileLink
             else .badLink))
    ∧ (∀ c : Char, ∀ rest : List Char,
        pyCapitalize ⟨c :: rest⟩ = ⟨c.toUpper :: rest.map Char.toLower⟩)
    ∧ pyCapitalize "aB" = "Ab" := by
  refine ⟨?_, fun c rest => rfl, rfl⟩
  intro rd m raw h
  unfold resolveLink
  rw [h, candidateResolution_eq_stepCand]

/-- Witness for the amended C5 at a concrete failing first candidate:
`france` does not resolve directly, and its capitalize-retry resolves
directly against the terminal set to `France`. -/
theorem c5_amended_witness :
    resolveLink Dict.empty c5mem "france"
      = (match candidateResolution Dict.empty c5mem (pyCapitalize "france") with
         | some r => r
         | none =>
           if "france".startsWith "File:" || "france".startsWith "Image:" then
             LinkRes.fileLink
           else LinkRes.badLink)
      ∧ resolveLink Dict.empty c5mem "france" = .target "France" := by
  exact ⟨c5_amended.1 Dict.empty c5mem "france" rfl, rfl⟩

/-- C4: the id element nested directly under `page` holds `1`, yet the
emitted page carries id `99` — the id read inside `revision` is not
ignored; `endElement("id")` never checks `in_revision` and overwrites
the stored page id, and the last id element closed before `</page>`
wins. -/
theorem c4_revision_id_becomes_page_id :
    c4out = [⟨some "99", some "T", none, some "body"⟩]
      ∧ (some "99" : Option String) ≠ some "1" := by
  refine ⟨rfl, by decide⟩

theorem handlePage_fst (s : HState) (r : HState × List UnparsedRawPage)
    (h : handlePage s = .ok r) :
    r.1 = { s with page_count := s.page_count + 1 } := by
  unfold handlePage at h
  dsimp only at h
  split at h
  · split at h
    · cases h
    · injection h with he
      rw [← he]
  · injection h with he
    rw [← he]

/-- C10: closing a `page` element resets `page_title`, `page_text`,
`page_redirect` and `seen_page_revision` but never `page_id`; hence a
page with no id element of its own is emitted with the most recently
seen id of an earlier page, as the two-page run shows (`U` carries the
id `99` left over from the first page). -/
theorem c10_page_id_not_reset :
    (∀ (s s2 : HState) (outp : List UnparsedRawPage),
      hEnd s "page" = .ok (s2, outp) →
      s2.page_id = s.page_id ∧ s2.page_title = none ∧ s2.page_text = none
        ∧ s2.page_redirect = none ∧ s2.seen_page_revision = false
        ∧ s2.in_page = false)
    ∧ c10out.map (fun p => (p.id, p.title))
        = [(some "99", some "T"), (some "99", some "U")] := by
  refine ⟨?_, rfl⟩
  intro s s2 outp h
  unfold hEnd at h
  rw [if_pos rfl] at h
  rcases hhp : handlePage s with e | r
  · rw [hhp] at h
    exact Except.noConfusion h
  · rw [hhp] at h
    have he := Except.ok.inj h
    have hr1 := handlePage_fst s r hhp
    refine ⟨?_, ?_, ?_, ?_, ?_, ?_⟩
    · have hid : s2.page_id = r.1.page_id :=
        (congrArg (fun x => x.1.page_id) he).symm
      rw [hid, hr1]
    · exact (congrArg (fun x => x.1.page_title) he).symm
    · exact (congrArg (fun x => x.1.page_text) he).symm
    · exact (congrArg (fun x => x.1.page_redirect) he).symm
    · exact (congrArg (fun x => x.1.seen_page_revision) he).symm
    · exact (congrArg (fun x => x.1.in_page) he).symm

/-- Witness for C10 at a concrete handler state: closing the page keeps
`page_id = some "7"` and clears the per-page fields. -/
theorem c10_witness :
    c10s1.page_id = some "7" ∧ c10s1.page_title = none
      ∧ c10s1.page_text = none ∧ c10s1.page_redirect = none
      ∧ c10s1.seen_page_revision = false := by
  obtain ⟨h1, h2, h3, h4, h5, _⟩ :=
    c10_page_id_not_reset.1 c10s0 c10s1 c10emit rfl
  exact ⟨h1, h2, h3, h4, h5⟩

/-! ## C1, C2, C9 -/

/-- C1: `WikiDataEntry` carries no `direct_subclass_of` field (the
attribute lookup fails on every entry), and since the joiner does read
that attribute when building a row, `_row_dict_from_line` raises an
`AttributeError` on every line `parse_dump_line` accepts. -/
theorem c1_entry_lacks_direct_subclass_of :
    (∀ e : WikiDataEntry, entryGetAttr e "direct_subclass_of" = none)
    ∧ (∀ (line : DumpLine) (wl : Option (List String)) (e : WikiDataEntry)
        (shelves : List (String × (String → Option CPage)))
        (ashelves : List (String × (String → Option String)))
        (pf : String → List String),
        parse_dump_line line wl = .ok (some e) →
        ∃ msg, rowDictFromLine line shelves ashelves pf wl = .error msg) := by
  constructor
  · intro e; rfl
  · intro line wl e shelves ashelves pf hp
    have htail : ∀ row1, rowTail pf e row1 =
        .error "AttributeError: WikiDataEntry object has no attribute direct_subclass_of" := by
      intro row1
      rfl
    unfold rowDictFromLine
    rw [hp]
    rcases hw : wikiColumns e shelves ashelves (baseRow e) with m | row1
    · refine ⟨m, ?_⟩
      show (wikiColumns e shelves ashelves (baseRow e) >>= fun row1 =>
        rowTail pf e row1) = Except.error m
      rw [hw]
      rfl
    · refine ⟨"AttributeError: WikiDataEntry object has no attribute direct_subclass_of", ?_⟩
      show (wikiColumns e shelves ashelves (baseRow e) >>= fun row1 =>
        rowTail pf e row1) = _
      rw [hw]
      show rowTail pf e row1 = _
      exact htail row1

/-- Witness for C1: `q1line` is accepted, its entry lacks the attribute,
and the joiner errors on it. -/
theorem c1_witness :
    entryGetAttr q1entry "direct_subclass_of" = none
      ∧ ∃ msg, rowDictFromLine q1line [] [] (fun _ => []) none
        = .error msg := by
  refine ⟨c1_entry_lacks_direct_subclass_of.1 q1entry, ?_⟩
  exact c1_entry_lacks_direct_subclass_of.2 q1line none q1entry [] []
    (fun _ => []) rfl

/-- C2: `WikipediaCanonicalPage` has no `name` attribute, so
`write_aliases_to_shelf` raises an `AttributeError` on the very first
article of any non-empty store — the identity mapping and the alias
mappings are never written. -/
theorem c2_write_aliases_attribute_error :
    (∀ p : CPage, cpageGetAttr p "name" = none)
    ∧ (∀ (articles : List CPage) (shelf : Dict String), articles ≠ [] →
        ∃ msg, write_aliases_to_shelf articles shelf = .error msg) := by
  constructor
  · intro p; rfl
  · intro articles shelf hne
    rcases articles with _ | ⟨a, rest⟩
    · exact absurd rfl hne
    · refine ⟨"AttributeError: WikipediaCanonicalPage object has no attribute name", ?_⟩
      rfl

/-- Witness for C2 at a one-article store. -/
theorem c2_witness :
    ∃ msg, write_aliases_to_shelf [ukPage] Dict.empty = .error msg :=
  c2_write_aliases_attribute_error.2 [ukPage] Dict.empty
    (List.cons_ne_nil ukPage [])

/-- C9: an item line whose sitelinks are empty after whitelist
restriction is dropped — `parse_dump_line` returns `None` before ever
touching labels, claims or coordinates, and `_row_dict_from_line`
produces no row for it. -/
theorem c9_empty_whitelisted_sitelinks_dropped :
    ∀ (line : DumpLine) (wl : Option (List String))
      (sl : List (String × SiteLinkObj)) (lbs : List (String × LabelObj)),
      line.type = "item" → line.sitelinks = some sl → line.labels = some lbs →
      titlesByWiki sl wl = [] →
      parse_dump_line line wl = .ok none
      ∧ ∀ (shelves : List (String × (String → Option CPage)))
          (ashelves : List (String × (String → Option String)))
          (pf : String → List String),
          rowDictFromLine line shelves ashelves pf wl = .ok none := by
  intro line wl sl lbs htype hsl hlb hempty
  obtain ⟨ty, lid, lb?, sl?, cl?⟩ := line
  dsimp only at htype hsl hlb
  subst htype
  subst hsl
  subst hlb
  have hparse : parse_dump_line ⟨"item", lid, some lbs, some sl, cl?⟩ wl
      = .ok none := by
    show parse_dump_rest lid (sampleLabelOf lbs) (titlesByWiki sl wl) cl?
      = .ok none
    unfold parse_dump_rest
    rw [hempty]
    rfl
  refine ⟨hparse, ?_⟩
  intro shelves ashelves pf
  unfold rowDictFromLine
  rw [hparse]
  rfl

/-- Witness for C9: a German-only item under an `enwiki` whitelist has
labels and claims but no retained sitelink; it is silently dropped. -/
theorem c9_witness :
    parse_dump_line c9line (some ["enwiki"]) = .ok none
      ∧ rowDictFromLine c9line [] [] (fun _ => []) (some ["enwiki"])
        = .ok none := by
  have h := c9_empty_whitelisted_sitelinks_dropped c9line (some ["enwiki"])
    [("dewiki", ⟨"Berlin"⟩)] [("de", ⟨"Berlin"⟩)] rfl rfl rfl rfl
  exact ⟨h.1, h.2 [] [] (fun _ => [])⟩

/-- No element is both strictly below and equal to `x`, so the two
rank-counting filters cover each element at most once. -/
theorem countLess_add_countEq_le (l : List Rat) (x : Rat) :
    (l.filter (fun y => y < x)).length + (l.filter (fun y => y = x)).length
      ≤ l.length := by
  induction l with
  | nil => simp
  | cons a t ih =>
    by_cases h1 : a < x
    · have h2 : ¬ (a = x) := fun he => absurd h1 (by rw [he]; exact lt_irrefl x)
      simp [List.filter_cons, h1, h2]
      omega
    · by_cases h2 : a = x
      · simp [List.filter_cons, h1, h2]
        omega
      · simp [List.filter_cons, h1, h2]
        omega

theorem ringW_col0 : ringW 0 0 = 0 ∧ ringW 1 0 = 0 ∧ ringW 2 0 = 1 := by
  refine ⟨?_, ?_, ?_⟩ <;> simp [ringW, linkWeight, ringPages, cnt, outNorm]

theorem ringW_col1 : ringW 0 1 = 1 ∧ ringW 1 1 = 0 ∧ ringW 2 1 = 0 := by
  refine ⟨?_, ?_, ?_⟩ <;> simp [ringW, linkWeight, ringPages, cnt, outNorm]

theorem ringW_col2 : ringW 0 2 = 0 ∧ ringW 1 2 = 1 ∧ ringW 2 2 = 0 := by
  refine ⟨?_, ?_, ?_⟩ <;> simp [ringW, linkWeight, ringPages, cnt, outNorm]

/-- Every damped-walk fixed point over the ring weight matrix is the
uniform vector `1/3`. -/
theorem ring_fixpoint_unique (pr : Fin 3 → Rat)
    (h : isPagerankFixpoint 3 ringW pr) : ∀ j, pr j = 1 / 3 := by
  have e0 := h 0
  have e1 := h 1
  have e2 := h 2
  simp only [Fin.sum_univ_three] at e0 e1 e2
  rw [ringW_col0.1, ringW_col0.2.1, ringW_col0.2.2] at e0
  rw [ringW_col1.1, ringW_col1.2.1, ringW_col1.2.2] at e1
  rw [ringW_col2.1, ringW_col2.2.1, ringW_col2.2.2] at e2
  have p0 : pr 0 = 1 / 3 := by
    push_cast at e0 e1 e2
    linarith
  have p1 : pr 1 = 1 / 3 := by
    push_cast at e0 e1 e2
    linarith
  have p2 : pr 2 = 1 / 3 := by
    push_cast at e0 e1 e2
    linarith
  intro j
  fin_cases j
  · exact p0
  · exact p1
  · exact p2

theorem pagerank_percentiles_third :
    pagerank_percentiles [1/3, 1/3, 1/3] = [2/3, 2/3, 2/3] := by
  have hlt : ¬ ((1 : Rat)/3 < 1/3) := lt_irrefl _
  simp [pagerank_percentiles, rankAvg, List.filter_cons, hlt]
  norm_num

/-- C8 counterexample: the PageRank engine gives every article of the
3-node ring the value `1/3` (any damped-walk fixed point over the built
weight matrix is uniform), but the percentile vector of three tied
PageRanks is `[2/3, 2/3, 2/3]` under average-rank tie-breaking — each
tied value has average rank 2 of 3 — not `1.0` as the claim states. -/
theorem c8_counterexample :
    (∀ pr : Fin 3 → Rat, isPagerankFixpoint 3 ringW pr →
      ∀ j, pr j = 1 / 3)
    ∧ pagerank_percentiles [1/3, 1/3, 1/3] = [2/3, 2/3, 2/3]
    ∧ ((2 : Rat) / 3) ≠ 1 :=
  ⟨ring_fixpoint_unique, pagerank_percentiles_third, by norm_num⟩

/-- C8 amended: all three ring articles receive PageRank exactly `1/3`,
their `pagerank_percentile` is `2/3` each (average rank 2 of 3), and in
general every entry's percentile is `rank(pr)/N` with average-rank ties
and lies in `(0, 1]`. -/
theorem c8_amended :
    (∀ pr : Fin 3 → Rat, isPagerankFixpoint 3 ringW pr →
      ∀ j, pr j = 1 / 3)
    ∧ pagerank_percentiles [1/3, 1/3, 1/3] = [2/3, 2/3, 2/3]
    ∧ (∀ (l : List Rat) (x : Rat), x ∈ l →
        0 < rankAvg l x / (l.length : Rat)
          ∧ rankAvg l x / (l.length : Rat) ≤ 1) := by
  refine ⟨ring_fixpoint_unique, pagerank_percentiles_third, ?_⟩
  intro l x hx
  have hlen : 0 < l.length := List.length_pos.mpr (List.ne_nil_of_mem hx)
  have hce : 1 ≤ (l.filter (fun y => y = x)).length := by
    have hxf : x ∈ l.filter (fun y => y = x) := by
      rw [List.mem_filter]
      exact ⟨hx, by simp⟩
    exact List.length_pos.mpr (List.ne_nil_of_mem hxf)
  have hsum := countLess_add_countEq_le l x
  have hlenQ : (0 : Rat) < (l.length : Rat) := by exact_mod_cast hlen
  have hceQ : (1 : Rat) ≤ ((l.filter (fun y => y = x)).length : Rat) := by
    exact_mod_cast hce
  have hclQ : (0 : Rat) ≤ ((l.filter (fun y => y < x)).length : Rat) := by
    positivity
  have hsumQ : ((l.filter (fun y => y < x)).length : Rat)
      + ((l.filter (fun y => y = x)).length : Rat) ≤ (l.length : Rat) := by
    exact_mod_cast hsum
  constructor
  · apply div_pos ?_ hlenQ
    unfold rankAvg
    linarith
  · rw [div_le_one hlenQ]
    unfold rankAvg
    linarith

/-- Witness for the amended C8: the uniform vector satisfies the
fixed-point equations (so the theorem applies to it), and the concrete
tied-triple percentile lies in `(0, 1]`. -/
theorem c8_witness :
    (fun _ : Fin 3 => (1 : Rat) / 3) 0 = 1 / 3
      ∧ (0 < rankAvg [1/3, 1/3, 1/3] (1/3)
            / (([1/3, 1/3, 1/3] : List Rat).length : Rat)
        ∧ rankAvg [1/3, 1/3, 1/3] (1/3)
            / (([1/3, 1/3, 1/3] : List Rat).length : Rat) ≤ 1) := by
  constructor
  · refine c8_amended.1 (fun _ => 1 / 3) ?_ 0
    intro j
    fin_cases j <;>
      · simp [Fin.sum_univ_three, ringW, linkWeight, ringPages, cnt, outNorm]
        try norm_num
  · exact c8_amended.2.2 [1/3, 1/3, 1/3] (1/3) (by simp)

theorem minDateFold_eq_foldl :
    ∀ (dates : List ClaimItem) (acc : Option Int) (r : Option Int),
      minDateFold dates acc = .ok r →
      r = (timesOfDates dates).foldl optMin acc := by
  intro dates
  induction dates with
  | nil =>
    intro acc r h
    simp only [minDateFold] at h
    cases h
    rfl
  | cons date rest ih =>
    intro acc r h
    simp only [minDateFold] at h
    rcases hx : extract_snak_value date "time" with e | v?
    · rw [hx] at h
      replace h : (Except.error e : Except String (Option Int)) = .ok r := h
      cases h
    · rw [hx] at h
      rcases v? with _ | v
      · replace h : minDateFold rest acc = .ok r := h
        have ht : timeOfItem date = none := by
          unfold timeOfItem
          rw [hx]
        rw [show timesOfDates (date :: rest) = timesOfDates rest from by
          simp [timesOfDates, List.filterMap_cons, ht]]
        exact ih acc r h
      · replace h : (parse_time v >>= fun t =>
            match t with
            | some tv =>
              match acc with
              | none => minDateFold rest (some tv)
              | some m =>
                if tv < m then minDateFold rest (some tv)
                else minDateFold rest acc
            | none => minDateFold rest acc) = .ok r := h
        rcases hp : parse_time v with e | t?
        · rw [hp] at h
          replace h : (Except.error e : Except String (Option Int)) = .ok r := h
          cases h
        · rw [hp] at h
          have ht : timeOfItem date = t? := by
            have h1 : timeOfItem date
                = (match parse_time v with
                   | .ok t => t
                   | .error _ => none) := by
              unfold timeOfItem
              rw [hx]
            rw [h1, hp]
          rcases t? with _ | tv
          · replace h : minDateFold rest acc = .ok r := h
            rw [show timesOfDates (date :: rest) = timesOfDates rest from by
              simp [timesOfDates, List.filterMap_cons, ht]]
            exact ih acc r h
          · have hcons : timesOfDates (date :: rest)
                = tv :: timesOfDates rest := by
              simp [timesOfDates, List.filterMap_cons, ht]
            rw [hcons, List.foldl_cons]
            rcases acc with _ | m
            · replace h : minDateFold rest (some tv) = .ok r := h
              exact ih (some tv) r h
            · replace h : (if tv < m then minDateFold rest (some tv)
                  else minDateFold rest (some m)) = .ok r := h
              by_cases hlt : tv < m
              · rw [if_pos hlt] at h
                rw [show optMin (some m) tv = some tv from by simp [optMin, hlt]]
                exact ih (some tv) r h
              · rw [if_neg hlt] at h
                rw [show optMin (some m) tv = some m from by simp [optMin, hlt]]
                exact ih (some m) r h

theorem foldl_optMin_some_ne_none (ts : List Int) :
    ∀ m : Int, ts.foldl optMin (some m) ≠ none := by
  induction ts with
  | nil => intro m h; cases h
  | cons t ts ih =>
    intro m
    simp only [List.foldl_cons]
    have he : optMin (some m) t = if t < m then some t else some m := rfl
    rw [he]
    by_cases hlt : t < m
    · rw [if_pos hlt]; exact ih t
    · rw [if_neg hlt]; exact ih m

theorem foldl_optMin_none_iff (ts : List Int) :
    ts.foldl optMin none = none ↔ ts = [] := by
  rcases ts with _ | ⟨t, ts⟩
  · simp
  · simp only [List.foldl_cons]
    constructor
    · intro h
      exact absurd h (foldl_optMin_some_ne_none ts t)
    · intro h; cases h

theorem foldl_optMin_min :
    ∀ (ts : List Int) (acc : Option Int) (m : Int),
      ts.foldl optMin acc = some m →
      (acc = some m ∨ m ∈ ts) ∧ (∀ u ∈ ts, m ≤ u)
        ∧ (∀ a, acc = some a → m ≤ a) := by
  intro ts
  induction ts with
  | nil =>
    intro acc m h
    simp only [List.foldl_nil] at h
    refine ⟨Or.inl h, by simp, ?_⟩
    intro a ha
    rw [h] at ha
    injection ha with he
    exact le_of_eq he
  | cons t ts ih =>
    intro acc m h
    simp only [List.foldl_cons] at h
    obtain ⟨ih1, ih2, ih3⟩ := ih (optMin acc t) m h
    rcases acc with _ | a0
    · have he : optMin none t = some t := rfl
      rw [he] at ih1 ih3
      have hmt : m ≤ t := ih3 t rfl
      constructor
      · right
        rcases ih1 with h1 | h1
        · injection h1 with h1e
          rw [← h1e]
          exact List.mem_cons_self t ts
        · exact List.mem_cons_of_mem t h1
      · refine ⟨?_, ?_⟩
        · intro u hu
          rcases List.mem_cons.mp hu with h2 | h2
          · rw [h2]; exact hmt
          · exact ih2 u h2
        · intro a ha; cases ha
    · by_cases hlt : t < a0
      · have he : optMin (some a0) t = some t := by simp [optMin, hlt]
        rw [he] at ih1 ih3
        have hmt : m ≤ t := ih3 t rfl
        refine ⟨?_, ?_, ?_⟩
        · right
          rcases ih1 with h1 | h1
          · injection h1 with h1e
            rw [← h1e]
            exact List.mem_cons_self t ts
          · exact List.mem_cons_of_mem t h1
        · intro u hu
          rcases List.mem_cons.mp hu with h2 | h2
          · rw [h2]; exact hmt
          · exact ih2 u h2
        · intro a ha
          injection ha with hae
          rw [← hae]
          exact le_of_lt (lt_of_le_of_lt hmt hlt)
      · have he : optMin (some a0) t = some a0 := by simp [optMin, hlt]
        rw [he] at ih1 ih3
        have hma : m ≤ a0 := ih3 a0 rfl
        have hmt : m ≤ t := le_trans hma (le_of_not_lt hlt)
        refine ⟨?_, ?_, ?_⟩
        · rcases ih1 with h1 | h1
          · exact Or.inl h1
          · exact Or.inr (List.mem_cons_of_mem t h1)
        · intro u hu
          rcases List.mem_cons.mp hu with h2 | h2
          · rw [h2]; exact hmt
          · exact ih2 u h2
        · intro a ha
          injection ha with hae
          rw [← hae]
          exact hma

/-- Any successfully parsed time value exposes its time string,
precision and Gregorian calendar model, begins with `+`, and its epoch
value comes from the precision dispatch. -/
theorem parse_time_ok_shape (v : DataVal) (t : Int)
    (h : parse_time v = .ok (some t)) :
    ∃ s prec, v.timeKey = some s ∧ v.precisionKey = some prec
      ∧ v.calendarmodelKey = some gregorianModel
      ∧ s.data.head? = some '+'
      ∧ parse_time_dispatch s prec = some t := by
  unfold parse_time at h
  split at h
  · exact absurd (Except.ok.inj h) (by simp)
  next timeStr heqTime =>
    split at h
    · exact absurd (Except.ok.inj h) (by simp)
    next prec heqPrec =>
      split at h
      · exact absurd (Except.ok.inj h) (by simp)
      next cal heqCal =>
        split at h
        · exact absurd (Except.ok.inj h) (by simp)
        next hcal =>
          split at h
          · cases h
          next c0 rest heqData =>
            split at h
            · exact absurd (Except.ok.inj h) (by simp)
            next hplus =>
              refine ⟨timeStr, prec, heqTime, heqPrec, ?_, ?_, Except.ok.inj h⟩
              · rw [heqCal]
                have : cal = gregorianModel := not_not.mp hcal
                rw [this]
              · rw [heqData]
                have : c0 = '+' := not_not.mp hplus
                rw [this]
                rfl

/-- C6: `publication_date` is the minimum over all parseable `P577`
claim values in epoch seconds, `none` exactly when no value parses; a
value parses only under the Gregorian calendar model and a `+` year
sign; precisions 7-9 keep the year only, 10 adds the month, 11 the
day, and 14 parses the full ISO datetime. -/
theorem c6_publication_date_minimum :
    (∀ (claims : Claims) (r : Option Int),
        parse_min_publication_date claims = .ok r →
          (r = none ↔ p577Times claims = [])
            ∧ ∀ t, r = some t →
                t ∈ p577Times claims ∧ ∀ u ∈ p577Times claims, t ≤ u)
    ∧ (∀ (v : DataVal) (t : Int), parse_time v = .ok (some t) →
          v.calendarmodelKey = some gregorianModel
            ∧ ∃ s, v.timeKey = some s ∧ s.data.head? = some '+')
    ∧ (∀ (v : DataVal) (t : Int) (s : String) (p : Int),
          parse_time v = .ok (some t) →
          v.timeKey = some s → v.precisionKey = some p →
          ((p = 7 ∨ p = 8 ∨ p = 9) →
              ∃ y, runFmt fmtY (s.data.take 5) = some y
                ∧ mkDatetime y 1 1 0 0 0 = some t)
            ∧ (p = 10 →
                ∃ x, runFmt fmtYM (s.data.take 8) = some x
                  ∧ mkDatetime x.1 x.2 1 0 0 0 = some t)
            ∧ (p = 11 →
                ∃ x, runFmt fmtYMD (s.data.take 11) = some x
                  ∧ mkDatetime x.1 x.2.1 x.2.2 0 0 0 = some t)
            ∧ (p = 14 →
                ∃ x, runFmt fmtFull s.data = some x
                  ∧ mkDatetime x.1 x.2.1 x.2.2.1 x.2.2.2.1 x.2.2.2.2.1
                      x.2.2.2.2.2 = some t)) := by
  refine ⟨?_, ?_, ?_⟩
  · intro claims r h
    unfold parse_min_publication_date at h
    split at h
    next heq =>
      have hr : r = none := (Except.ok.inj h).symm
      subst hr
      refine ⟨?_, ?_⟩
      · simp [p577Times, heq]
      · intro t ht; cases ht
    next dates heq =>
      have hfold := minDateFold_eq_foldl dates none r h
      have hpt : p577Times claims = timesOfDates dates := by
        simp [p577Times, heq]
      rw [hpt]
      refine ⟨?_, ?_⟩
      · constructor
        · intro hr
          rw [hr] at hfold
          exact (foldl_optMin_none_iff (timesOfDates dates)).mp hfold.symm
        · intro hts
          rw [hfold, hts]
          rfl
      · intro t ht
        rw [ht] at hfold
        obtain ⟨h1, h2, _⟩ := foldl_optMin_min (timesOfDates dates) none t hfold.symm
        rcases h1 with h1 | h1
        · cases h1
        · exact ⟨h1, h2⟩
  · intro v t h
    obtain ⟨s, p, hs, hp, hcal, hplus, hdisp⟩ := parse_time_ok_shape v t h
    exact ⟨hcal, s, hs, hplus⟩
  · intro v t s p h hs hp
    obtain ⟨s2, p2, hs2, hp2, hcal, hplus, hdisp⟩ := parse_time_ok_shape v t h
    rw [hs] at hs2
    injection hs2 with hse
    subst hse
    rw [hp] at hp2
    injection hp2 with hpe
    subst hpe
    refine ⟨?_, ?_, ?_, ?_⟩
    · rintro (rfl | rfl | rfl) <;>
      · replace hdisp : (runFmt fmtY (s.data.take 5)).bind
            (fun y => mkDatetime y 1 1 0 0 0) = some t := hdisp
        rcases hrun : runFmt fmtY (s.data.take 5) with _ | y
        · rw [hrun] at hdisp
          exact absurd hdisp (by simp)
        · rw [hrun] at hdisp
          exact ⟨y, rfl, by simpa using hdisp⟩
    · rintro rfl
      replace hdisp : (runFmt fmtYM (s.data.take 8)).bind
          (fun ym => mkDatetime ym.1 ym.2 1 0 0 0) = some t := hdisp
      rcases hrun : runFmt fmtYM (s.data.take 8) with _ | x
      · rw [hrun] at hdisp
        exact absurd hdisp (by simp)
      · rw [hrun] at hdisp
        exact ⟨x, rfl, by simpa using hdisp⟩
    · rintro rfl
      replace hdisp : (runFmt fmtYMD (s.data.take 11)).bind
          (fun x => mkDatetime x.1 x.2.1 x.2.2 0 0 0) = some t := hdisp
      rcases hrun : runFmt fmtYMD (s.data.take 11) with _ | x
      · rw [hrun] at hdisp
        exact absurd hdisp (by simp)
      · rw [hrun] at hdisp
        exact ⟨x, rfl, by simpa using hdisp⟩
    · rintro rfl
      replace hdisp : (runFmt fmtFull s.data).bind
          (fun x => mkDatetime x.1 x.2.1 x.2.2.1 x.2.2.2.1 x.2.2.2.2.1
            x.2.2.2.2.2) = some t := hdisp
      rcases hrun : runFmt fmtFull s.data with _ | x
      · rw [hrun] at hdisp
        exact absurd hdisp (by simp)
      · rw [hrun] at hdisp
        exact ⟨x, rfl, by simpa using hdisp⟩

/-- Witness for C6: on the concrete two-value claims dict the parsed
minimum is 315532800 (1980-01-01), and it is a member of and a lower
bound for the parseable `P577` values. -/
theorem c6_witness :
    parse_min_publication_date c6claims = .ok (some 315532800)
      ∧ ((315532800 : Int) ∈ p577Times c6claims
        ∧ ∀ u ∈ p577Times c6claims, (315532800 : Int) ≤ u) :=
  ⟨rfl, (c6_publication_date_minimum.1 c6claims (some 315532800) rfl).2
      315532800 rfl⟩
